import Mathlib

/-!
Verification development for the ocean-frontend single-page application.

The JavaScript source is shallowly embedded: JS numbers become a four-way
sum `JSNum` (finite rational, +Infinity, -Infinity, NaN); JS field values
that may be numbers, strings, `undefined` or `null` become `JVal`; each
string-rewriting step of the text formatters becomes an executable scanner
over `List Char` mirroring the corresponding JavaScript regular-expression
replacement; React event handlers become pure state-transition functions
with the `fetch` outcome passed in explicitly.
-/

set_option maxRecDepth 4000

/-! ## JavaScript numbers -/

/-- A JavaScript number: a finite value (modelled exactly as a rational),
positive or negative infinity, or NaN. -/
inductive JSNum where
  | fin (q : ℚ)
  | posInf
  | negInf
  | nan
  deriving DecidableEq, Repr

namespace JSNum

/-- JS `isNaN` (on an already-numeric value). -/
def isNaNb : JSNum → Bool
  | .nan => true
  | _ => false

/-- JS `Number.isFinite`. -/
def isFiniteb : JSNum → Bool
  | .fin _ => true
  | _ => false

/-- JS `<` on numbers: any comparison involving NaN is false. -/
def jsLt : JSNum → JSNum → Bool
  | .fin a, .fin b => decide (a < b)
  | .fin _, .posInf => true
  | .negInf, .fin _ => true
  | .negInf, .posInf => true
  | _, _ => false

/-- JS `<=` on numbers: any comparison involving NaN is false. -/
def jsLe : JSNum → JSNum → Bool
  | .fin a, .fin b => decide (a ≤ b)
  | .fin _, .posInf => true
  | .negInf, .fin _ => true
  | .negInf, .posInf => true
  | .negInf, .negInf => true
  | .posInf, .posInf => true
  | _, _ => false

/-- JS `Math.abs`. -/
def jsAbs : JSNum → JSNum
  | .fin q => .fin |q|
  | .posInf => .posInf
  | .negInf => .posInf
  | .nan => .nan

/-- JS subtraction. -/
def jsSub : JSNum → JSNum → JSNum
  | .fin a, .fin b => .fin (a - b)
  | .fin _, .posInf => .negInf
  | .fin _, .negInf => .posInf
  | .posInf, .fin _ => .posInf
  | .negInf, .fin _ => .negInf
  | .posInf, .negInf => .posInf
  | .negInf, .posInf => .negInf
  | _, _ => .nan

/-- JS addition. -/
def jsAdd : JSNum → JSNum → JSNum
  | .fin a, .fin b => .fin (a + b)
  | .fin _, .posInf => .posInf
  | .fin _, .negInf => .negInf
  | .posInf, .fin _ => .posInf
  | .negInf, .fin _ => .negInf
  | .posInf, .posInf => .posInf
  | .negInf, .negInf => .negInf
  | _, _ => .nan

/-- Squaring a JS number (`Math.pow(x, 2)` / `x * x`). -/
def jsSq : JSNum → JSNum
  | .fin a => .fin (a * a)
  | .posInf => .posInf
  | .negInf => .posInf
  | .nan => .nan

/-- JS truthiness of a number: `0` and `NaN` are falsy, everything else
(including the infinities) is truthy. -/
def truthyNum : JSNum → Bool
  | .fin q => decide (q ≠ 0)
  | .nan => false
  | _ => true

end JSNum

/-! ## JS string whitespace and `parseFloat` -/

/-- JS `\s` / `StrWhiteSpace`: space, tab, LF, VT, FF, CR and NBSP
(the ASCII whitespace characters plus no-break space; other rare Unicode
whitespace code points do not occur in this application's data). -/
def isWs (c : Char) : Bool :=
  c = ' ' || c = '\t' || c = '\n' || c = Char.ofNat 11 || c = Char.ofNat 12 ||
  c = '\r' || c = Char.ofNat 160

/-- Numeric value of a decimal digit character. -/
def digitVal (c : Char) : ℕ := c.toNat - 48

/-- Value of a digit list read in base 10. -/
def natOfDigits (l : List Char) : ℕ :=
  l.foldl (fun a c => a * 10 + digitVal c) 0

/-- `parseFloat` on a list of characters: skip leading whitespace, read an
optional sign, then either the literal `Infinity` or the longest prefix of
the form `digits [. digits] [e|E [sign] digits]` with at least one digit
before or after the dot; anything else yields NaN.  The decimal literal
`ds.fs e expv` denotes the exact rational
`digits(ds ++ fs) x 10^expv / 10^(length fs)`, assembled below as a single
normalized fraction via `mkRat`. -/
def parseFloatCore (l : List Char) : JSNum :=
  let l1 := l.dropWhile isWs
  let sgnNeg : Bool := l1.head? = some '-'
  let l2 := if l1.head? = some '-' || l1.head? = some '+' then l1.tail else l1
  if ("Infinity".data).isPrefixOf l2 then
    if sgnNeg then .negInf else .posInf
  else
    let ds := l2.takeWhile Char.isDigit
    let l3 := l2.dropWhile Char.isDigit
    let fs := if l3.head? = some '.' then l3.tail.takeWhile Char.isDigit else []
    let l4 := if l3.head? = some '.' then l3.tail.dropWhile Char.isDigit else l3
    if ds.isEmpty && fs.isEmpty then .nan
    else
      let expv : ℤ :=
        if l4.head? = some 'e' || l4.head? = some 'E' then
          let r := l4.tail
          let eNeg : Bool := r.head? = some '-'
          let r2 := if r.head? = some '-' || r.head? = some '+' then r.tail else r
          let eds := r2.takeWhile Char.isDigit
          if eds.isEmpty then 0
          else if eNeg then -(natOfDigits eds : ℤ) else (natOfDigits eds : ℤ)
        else 0
      let n : ℤ := if sgnNeg then -(natOfDigits (ds ++ fs) : ℤ) else (natOfDigits (ds ++ fs) : ℤ)
      let mag : ℚ :=
        if 0 ≤ expv then mkRat (n * ((10 ^ expv.toNat : ℕ) : ℤ)) (10 ^ fs.length)
        else mkRat n (10 ^ (fs.length + (-expv).toNat))
      .fin mag

/-- JS `parseFloat` on a string. -/
def parseFloatStr (s : String) : JSNum := parseFloatCore s.data

/-! ## JS values (number-or-string-or-undefined-or-null fields) -/

/-- A JavaScript value as it occurs in an `ArgoFloat` record field. -/
inductive JVal where
  | num (x : JSNum)
  | str (s : String)
  | undefV
  | null
  deriving DecidableEq, Repr

namespace JVal

/-- JS truthiness. -/
def truthy : JVal → Bool
  | .num x => x.truthyNum
  | .str s => decide (s ≠ "")
  | .undefV => false
  | .null => false

/-- `parseFloat` applied to an arbitrary JS value.  A number argument is
first coerced to its string form; for every JS number that round-trips
(`parseFloat(String(x)) == x` holds for all numbers, with
`String(NaN) = "NaN"` parsing to NaN and `String(±Infinity) = "±Infinity"`
parsing back to the infinities), so the numeric case is the identity.
`undefined` coerces to `"undefined"` and `null` to `"null"`, both parsing
to NaN. -/
def parseFloatJ : JVal → JSNum
  | .num x => x
  | .str s => parseFloatStr s
  | .undefV => .nan
  | .null => .nan

end JVal

/-! ## Heatmap point derivation (`heatmapData` in ArgoFloatsMap.jsx) -/

/-- An Argo float record as consumed from the backend: each field may be a
number, a string, `undefined` or `null` (fields not used by the heatmap
derivation are omitted). -/
structure ArgoFloat where
  lat : JVal
  lng : JVal
  temp : JVal
  salinity : JVal
  deriving DecidableEq, Repr

/-- A derived heat point (`{lat, lng, temp, salinity, value}`). -/
structure HeatPoint where
  lat : JSNum
  lng : JSNum
  temp : JSNum
  salinity : JSNum
  value : JSNum
  deriving DecidableEq, Repr

/-- The coordinate-and-region filter of `heatmapData`
(`argoFloats.filter(float => ...)`): reject a null/undefined record, a
record whose coordinates fail `isNaN`, fall outside `[-90,90]x[-180,180]`
by `Math.abs`, or fall outside the Indian-Ocean bounds
(lat in `[-30,30]`, lng in `[30,100]`). -/
def coordPasses (lat lng : JSNum) : Bool :=
  if lat.isNaNb || lng.isNaNb then false
  else if (JSNum.jsLt (.fin 90) lat.jsAbs) || (JSNum.jsLt (.fin 180) lng.jsAbs) then false
  else
    JSNum.jsLe (.fin (-30)) lat && JSNum.jsLe lat (.fin 30) &&
    JSNum.jsLe (.fin 30) lng && JSNum.jsLe lng (.fin 100)

/-- The record filter: a falsy (null/undefined) entry is rejected, otherwise
`coordPasses` is applied to `parseFloat(float.lat)` and
`parseFloat(float.lng)`. -/
def floatPasses : Option ArgoFloat → Bool
  | none => false
  | some f => coordPasses f.lat.parseFloatJ f.lng.parseFloatJ

/-- `const tempValue = float.temp ? parseFloat(float.temp) : 0`. -/
def tempValue (f : ArgoFloat) : JSNum :=
  if f.temp.truthy then f.temp.parseFloatJ else .fin 0

/-- `parseFloat(...) || 0`: fall back to `0` when the parse result is falsy
(NaN or 0). -/
def orZero (x : JSNum) : JSNum :=
  if x.truthyNum then x else .fin 0

/-- The prefix of a string up to (excluding) the first space:
`s.split(' ')[0]`. -/
def firstField (s : String) : String := ⟨s.data.takeWhile (· ≠ ' ')⟩

/-- `const salinityStr = float.salinity ? String(float.salinity) : '0';
const salinityValue = parseFloat(salinityStr.split(' ')[0]) || 0`.
For a truthy number `q`, `String(q)` is a space-free numeral that
`parseFloat` round-trips, so the value is `q` itself (0 for a falsy 0 or
NaN, the infinities for `"±Infinity"`); for a truthy string the numeric
prefix up to the first space is parsed with fallback 0. -/
def salinityValue (f : ArgoFloat) : JSNum :=
  match f.salinity with
  | .str s => if s = "" then .fin 0 else orZero (parseFloatStr (firstField s))
  | .num (.fin q) => .fin q
  | .num .posInf => .posInf
  | .num .negInf => .negInf
  | .num .nan => .fin 0
  | .undefV => .fin 0
  | .null => .fin 0

/-- The `.map(float => ...)` step of `heatmapData`: build the heat point,
with `value` selected by the active heatmap mode
(`activeHeatmap === 'temperature' ? tempValue : salinityValue`). -/
def mkHeatPoint (mode : String) (f : ArgoFloat) : HeatPoint :=
  { lat := f.lat.parseFloatJ
    lng := f.lng.parseFloatJ
    temp := tempValue f
    salinity := salinityValue f
    value := if mode = "temperature" then tempValue f else salinityValue f }

/-- The final `.filter(point => !isNaN(point.value) && !isNaN(point.lat) &&
!isNaN(point.lng))` of `heatmapData`. -/
def heatPointValid (p : HeatPoint) : Bool :=
  !p.value.isNaNb && !p.lat.isNaNb && !p.lng.isNaNb

/-- `heatmapData`: the guard for a missing/empty float array, then
filter-map-filter exactly as in the source. -/
def heatmapData (floats : List (Option ArgoFloat)) (mode : String) : List HeatPoint :=
  if floats.isEmpty then []
  else
    (((floats.filter floatPasses).filterMap id).map (mkHeatPoint mode)).filter
      heatPointValid

/-- The validity condition claimed in the spec for a record: both
coordinates parse to finite numbers, lie within `[-90,90]x[-180,180]`, and
lie within the fixed region bounds (lat in `[-30,30]`, lng in `[30,100]`). -/
def goodCoordB : JSNum → JSNum → Bool
  | .fin la, .fin lg =>
    decide (-90 ≤ la) && decide (la ≤ 90) && decide (-180 ≤ lg) && decide (lg ≤ 180) &&
    decide (-30 ≤ la) && decide (la ≤ 30) && decide (30 ≤ lg) && decide (lg ≤ 100)
  | _, _ => false

/-- The spec-side record validity condition, on the parsed coordinates. -/
def goodRecB (f : ArgoFloat) : Bool :=
  goodCoordB f.lat.parseFloatJ f.lng.parseFloatJ

/-- A record with unparsable latitude, used to witness C1. -/
def c1BadFloat : ArgoFloat :=
  { lat := .str "abc", lng := .num (.fin 50), temp := .num (.fin 28),
    salinity := .num (.fin 35) }

def withSalinity (v : JVal) : ArgoFloat :=
  { lat := .num (.fin 0), lng := .num (.fin 0), temp := .num (.fin 0), salinity := v }

/-- A record whose temperature string parses to Infinity. -/
def c3InfFloat : ArgoFloat :=
  { lat := .num (.fin 0), lng := .num (.fin 50), temp := .str "Infinity",
    salinity := .num (.fin 35) }

/-- The heat point derived from `c3InfFloat` in temperature mode. -/
def c3InfPoint : HeatPoint :=
  { lat := .fin 0, lng := .fin 50, temp := .posInf, salinity := .fin 35,
    value := .posInf }

/-- A fully valid record used to witness C3. -/
def c3GoodFloat : ArgoFloat :=
  { lat := .str "10", lng := .str "50", temp := .str "28", salinity := .str "35 PSU" }

/-- The heat point derived from `c3GoodFloat` in temperature mode. -/
def c3GoodPoint : HeatPoint :=
  { lat := .fin 10, lng := .fin 50, temp := .fin 28, salinity := .fin 35,
    value := .fin 28 }

/-! ## Filter parameter mapping (FloatFilters.jsx handleSubmit +
ArgoFloatsMap.jsx fetchArgoFloats query building) -/

/-- The UI filter state: each field holds a string (the empty string means
unset) or is `undefined` (modelled as `none`). -/
structure FilterCriteria where
  latMin : Option String
  latMax : Option String
  lonMin : Option String
  lonMax : Option String
  depthMax : Option String
  startDate : Option String
  endDate : Option String
  deriving DecidableEq, Repr

/-- A value of the intermediate `apiFilters` object: `undefined`, a string,
or a number (only `depth_max` is numeric). -/
inductive QueryVal where
  | undefV
  | str (s : String)
  | num (x : JSNum)
  deriving DecidableEq, Repr

/-- `filters.latMin || undefined`: an empty or missing string becomes
`undefined`. -/
def orUndef : Option String → QueryVal
  | some s => if s = "" then .undefV else .str s
  | none => .undefV

/-- `filters.depthMax ? parseFloat(filters.depthMax) : undefined`. -/
def depthQueryVal : Option String → QueryVal
  | some s => if s = "" then .undefV else .num (parseFloatStr s)
  | none => .undefV

/-- `handleSubmit`: rename the camelCase UI fields to the backend's
snake_case parameter names (in object insertion order), parsing `depthMax`
to a number and defaulting falsy fields to `undefined`. -/
def apiFilters (f : FilterCriteria) : List (String × QueryVal) :=
  [("lat_min", orUndef f.latMin),
   ("lat_max", orUndef f.latMax),
   ("lon_min", orUndef f.lonMin),
   ("lon_max", orUndef f.lonMax),
   ("depth_max", depthQueryVal f.depthMax),
   ("start_date", orUndef f.startDate),
   ("end_date", orUndef f.endDate)]

/-- The emission guard of `fetchArgoFloats`:
`value !== undefined && value !== ''`. -/
def emitParam (kv : String × QueryVal) : Bool :=
  !(decide (kv.2 = QueryVal.undefV)) && !(decide (kv.2 = QueryVal.str ""))

/-- The query parameters appended to the request URL. -/
def emittedParams (f : FilterCriteria) : List (String × QueryVal) :=
  (apiFilters f).filter emitParam

/-- Spec-side shape of one emitted string parameter: present exactly when
the UI value is a nonempty string, passed through unchanged. -/
def strParamOf (k : String) : Option String → List (String × QueryVal)
  | some s => if s = "" then [] else [(k, .str s)]
  | none => []

/-- Spec-side shape of the emitted depth parameter: present exactly when the
UI value is a nonempty string, parsed by `parseFloat`. -/
def depthParamOf (k : String) : Option String → List (String × QueryVal)
  | some s => if s = "" then [] else [(k, .num (parseFloatStr s))]
  | none => []

/-! ## Synthetic depth profile generator (generateDepthProfile) -/

/-- One synthetic profile point. -/
structure DepthProfilePoint where
  depth : ℕ
  temperature : ℚ
  salinity : ℚ
  deriving DecidableEq, Repr

/-- `parseFloat(x.toFixed(2))`: round to the nearest multiple of 1/100
(the kind of tie does not matter for any statement below). -/
def round2 (q : ℚ) : ℚ := (⌊q * 100 + 1/2⌋ : ℤ) / 100

/-- `const baseTemp = 25 + (Math.random() * 5)`; the random stream is passed
explicitly, indexed by call order. -/
def profBaseTemp (rand : ℕ → ℚ) : ℚ := 25 + rand 0 * 5

/-- `const baseSalinity = 34.5 + (Math.random() * 2)`. -/
def profBaseSalinity (rand : ℕ → ℚ) : ℚ := 34.5 + rand 1 * 2

/-- The body of one loop iteration of `generateDepthProfile` at depth
`10 * i`; the two `Math.random()` calls of the iteration are draws
`2 + 2 * i` and `3 + 2 * i` of the stream (two draws precede the loop). -/
def genPoint (rand : ℕ → ℚ) (i : ℕ) : DepthProfilePoint :=
  let depth : ℚ := 10 * (i : ℚ)
  let temperature : ℚ :=
    profBaseTemp rand - depth * 0.02 + (rand (2 + 2 * i) * 0.5 - 0.25)
  let salinity : ℚ := profBaseSalinity rand
    + (if depth < 200 then 0 else (depth - 200) * 0.005)
    + (rand (3 + 2 * i) * 0.1 - 0.05)
  { depth := 10 * i, temperature := round2 temperature, salinity := round2 salinity }

/-- `generateDepthProfile`: the loop `for (depth = 0; depth <= 1000;
depth += 10)` visits depth `10 * i` for each `i < 101` in order. -/
def generateDepthProfile (rand : ℕ → ℚ) : List DepthProfilePoint :=
  (List.range 101).map (genPoint rand)

/-! ## Chat send (App.jsx handleSendMessage) -/

/-- A chat message; the optional structured `data` payload carried by
successful bot messages is not modelled (no claim mentions it). -/
structure ChatMessage where
  id : ℕ
  text : String
  sender : String
  timestamp : ℕ
  isError : Bool
  deriving DecidableEq, Repr

/-- Trailing-whitespace removal. -/
def dropTrailingWs (l : List Char) : List Char := (l.reverse.dropWhile isWs).reverse

/-- JS `String.prototype.trim`. -/
def wsTrimList (l : List Char) : List Char := dropTrailingWs (l.dropWhile isWs)

/-- JS `s.trim()` on strings. -/
def jsTrim (s : String) : String := ⟨wsTrimList s.data⟩

/-- The chat component state touched by `handleSendMessage`. -/
structure ChatState where
  messages : List ChatMessage
  inputValue : String
  isLoading : Bool
  deriving DecidableEq, Repr

/-- A parsed `/ask` response body; `answer` may be absent. -/
structure AskResponse where
  answer : Option String
  deriving DecidableEq, Repr

/-- The outcome of the `fetch`: a parsed 2xx response, a non-2xx status
(which the code turns into a thrown error), or a network failure (fetch
rejection).  The latter two reach the same `catch` block. -/
inductive FetchOutcome where
  | success (r : AskResponse)
  | httpError
  | networkError
  deriving DecidableEq, Repr

/-- The user message appended on send (`id: Date.now()`; the timestamp is
the same clock reading, modelled by one `now` value). -/
def userMessageOf (t : String) (now : ℕ) : ChatMessage :=
  { id := now, text := t, sender := "user", timestamp := now, isError := false }

/-- The error bot message of the `catch` block. -/
def errorBotMessage (now : ℕ) : ChatMessage :=
  { id := now + 1,
    text := "Sorry, I encountered an error processing your request. Please try again later.",
    sender := "bot", timestamp := now, isError := true }

/-- Fallback text when the response lacks a truthy `answer`. -/
def askFallbackText : String :=
  "I received your message but couldn\u0027t process it at the moment."

/-- The bot message appended on success (`data.answer || fallback`). -/
def successBotMessage (now : ℕ) (r : AskResponse) : ChatMessage :=
  { id := now + 1,
    text := match r.answer with
      | some a => if a = "" then askFallbackText else a
      | none => askFallbackText,
    sender := "bot", timestamp := now, isError := false }

/-- `handleSendMessage` flattened over one send: an empty trimmed input
returns unchanged; otherwise the user message is appended and the input
cleared, the awaited fetch outcome appends the bot or error message, and
the `finally` clause clears the loading flag. -/
def handleSendMessage (st : ChatState) (now : ℕ) (outcome : FetchOutcome) : ChatState :=
  let t := jsTrim st.inputValue
  if t = "" then st
  else
    match outcome with
    | .success r =>
      { messages := st.messages ++ [userMessageOf t now, successBotMessage now r],
        inputValue := "", isLoading := false }
    | .httpError =>
      { messages := st.messages ++ [userMessageOf t now, errorBotMessage now],
        inputValue := "", isLoading := false }
    | .networkError =>
      { messages := st.messages ++ [userMessageOf t now, errorBotMessage now],
        inputValue := "", isLoading := false }

/-- The squared degree-space distance from the click to a heat point,
computed with JS number semantics.  The source computes
`Math.sqrt(dx*dx + dy*dy) * 100` and compares such values with each other
(`distance < minDistance`, with `minDistance` initialized to `Infinity`)
and with the threshold `100`; since `x -> sqrt(x) * 100` is strictly
monotone on `[0, Infinity]` and maps NaN to NaN, every comparison the code
performs on scaled distances holds iff the same comparison holds on the
squared distances, with the threshold `100` corresponding to a squared
distance of `1`.  The model therefore tracks squared distances. -/
def distSqJS (clat clng : ℚ) (p : HeatPoint) : JSNum :=
  JSNum.jsAdd (JSNum.jsSq (JSNum.jsSub p.lat (.fin clat)))
    (JSNum.jsSq (JSNum.jsSub p.lng (.fin clng)))

/-- One step of the `forEach` minimum search. -/
def nearestStep (clat clng : ℚ) (acc : Option HeatPoint × JSNum) (p : HeatPoint) :
    Option HeatPoint × JSNum :=
  if JSNum.jsLt (distSqJS clat clng p) acc.2 then (some p, distSqJS clat clng p) else acc

/-- The `forEach` loop: `nearestPoint = null; minDistance = Infinity;`
then update whenever a strictly smaller distance is seen. -/
def nearestFold (clat clng : ℚ) (pts : List HeatPoint) : Option HeatPoint × JSNum :=
  pts.foldl (nearestStep clat clng) (none, .posInf)

/-- The clicked-point result (`setClickedPoint` payload; the derived
`type`/`distance` display strings are not modelled). -/
structure ClickedPoint where
  lat : ℚ
  lng : ℚ
  value : JSNum
  deriving DecidableEq, Repr

/-- `handleMapClick`: guard on an empty point set, minimum search, then the
`nearestPoint && minDistance < 100` threshold check (squared: `< 1`). -/
def handleMapClick (clat clng : ℚ) (pts : List HeatPoint) : Option ClickedPoint :=
  if pts.isEmpty then none
  else
    match nearestFold clat clng pts with
    | (some p, minSq) =>
      if JSNum.jsLt minSq (.fin 1) then some ⟨clat, clng, p.value⟩ else none
    | (none, _) => none

/-- A heat point exactly 1 degree (100 scaled distance units) from the
click used in the boundary counterexample. -/
def c5BoundaryPoint : HeatPoint :=
  { lat := .fin 0, lng := .fin 50, temp := .fin 28, salinity := .fin 35,
    value := .fin 28 }

/-- A heat point close to the witness click. -/
def c5NearPoint : HeatPoint :=
  { lat := .fin 0, lng := .fin 50, temp := .fin 28, salinity := .fin 35,
    value := .fin 28 }

/-! ## Plain-text formatter `cleanText` (App.jsx) -/

/-- The backtick character (code point 96). -/
def btk : Char := Char.ofNat 96

/-- Generic engine for a global regex replacement whose pattern never
matches the empty string: at each position try the matcher `m`; on a
match, emit the replacement and continue after the consumed text (JS
continues scanning at `lastIndex`, and replacements are never rescanned);
otherwise emit one character and advance one position.  `fuel` bounds the
number of steps; every matcher below consumes at least one character, so
`l.length` fuel always completes the scan. -/
def scanReplace (m : List Char → Option (List Char × List Char)) :
    ℕ → List Char → List Char
  | _, [] => []
  | 0, l => l
  | fuel + 1, c :: rest =>
    match m (c :: rest) with
    | some (rep, rest2) => rep ++ scanReplace m fuel rest2
    | none => c :: scanReplace m fuel rest

/-- Run a global replacement over a whole string value. -/
def runScan (m : List Char → Option (List Char × List Char)) (l : List Char) :
    List Char :=
  scanReplace m l.length l

/-- Consume through the next `>` (or the rest if none): the tail of a
`/<[^>]*>?/` match. -/
def dropThroughGt : List Char → List Char
  | [] => []
  | '>' :: r => r
  | _ :: r => dropThroughGt r

/-- `/<[^>]*>?/g -> ''` (the `>` is optional: an unterminated `<` consumes
the rest of the string). -/
def mTagOpt (l : List Char) : Option (List Char × List Char) :=
  match l with
  | c :: rest => if c = '<' then some ([], dropThroughGt rest) else none
  | [] => none

/-- `/\s*#+\s*/g -> ''`. -/
def mHash (l : List Char) : Option (List Char × List Char) :=
  match l.dropWhile isWs with
  | c :: r =>
    if c = '#' then some ([], (r.dropWhile (fun x => x = '#')).dropWhile isWs)
    else none
  | [] => none

/-- `/\s*\*\s*/g -> ''` (a single star). -/
def mStar (l : List Char) : Option (List Char × List Char) :=
  match l.dropWhile isWs with
  | c :: r => if c = '*' then some ([], r.dropWhile isWs) else none
  | [] => none

/-- `/\s*\-\s*/g -> ''` (a single hyphen). -/
def mDash (l : List Char) : Option (List Char × List Char) :=
  match l.dropWhile isWs with
  | c :: r => if c = '-' then some ([], r.dropWhile isWs) else none
  | [] => none

/-- `/\s*\d+\.\s*/g -> ''` (digits followed by a dot). -/
def mNumDot (l : List Char) : Option (List Char × List Char) :=
  match l.dropWhile isWs with
  | c :: r =>
    if c.isDigit then
      match (c :: r).dropWhile Char.isDigit with
      | d :: r2 => if d = '.' then some ([], r2.dropWhile isWs) else none
      | [] => none
    else none
  | [] => none

/-- `/\s+/g -> ' '` (collapse every whitespace run to one space). -/
def mWsRun (l : List Char) : Option (List Char × List Char) :=
  match l with
  | c :: _ => if isWs c then some ([' '], l.dropWhile isWs) else none
  | [] => none

/-- The character class `[\-\*_]`. -/
def isRunChar (c : Char) : Bool := c = '-' || c = '*' || c = '_'

/-- `/\s*[\-\*_]{2,}\s*/g -> ''`. -/
def mRun2 (l : List Char) : Option (List Char × List Char) :=
  match l.dropWhile isWs with
  | c :: r =>
    if isRunChar c then
      if 2 ≤ ((c :: r).takeWhile isRunChar).length then
        some ([], ((c :: r).dropWhile isRunChar).dropWhile isWs)
      else none
    else none
  | [] => none

/-- Does the list start with three backticks? -/
def startsTicks3 (l : List Char) : Bool :=
  match l with
  | a :: b :: c :: _ => a = btk && b = btk && c = btk
  | _ => false

/-- Scan (as the lazy `.*?` does, one position at a time) for the next run
of at least three backticks; on success consume that whole run (`{3,}` is
greedy) and the trailing `\s*`. -/
def chopSecondFence : List Char → Option (List Char)
  | [] => none
  | c :: r =>
    if startsTicks3 (c :: r) then
      some (((c :: r).dropWhile (fun x => x = btk)).dropWhile isWs)
    else chopSecondFence r

/-- Backtracking of the greedy opening `` `{3,} ``: try consuming `b`
backticks, from the full run length downwards to 3, until a closing run is
found. -/
def fenceTryB (l1 : List Char) : ℕ → Option (List Char)
  | 0 => none
  | b + 1 =>
    if b + 1 < 3 then none
    else
      match chopSecondFence (l1.drop (b + 1)) with
      | some rest => some rest
      | none => fenceTryB l1 b

/-- ``/\s*`{3,}.*?`{3,}\s*/gs -> ''``. -/
def mFence (l : List Char) : Option (List Char × List Char) :=
  match l.dropWhile isWs with
  | c :: r =>
    if c = btk then
      if 3 ≤ ((c :: r).takeWhile (fun x => x = btk)).length then
        match fenceTryB (c :: r) ((c :: r).takeWhile (fun x => x = btk)).length with
        | some rest => some ([], rest)
        | none => none
      else none
    else none
  | [] => none

/-- ``/\s*`([^`]+)`\s*/g -> '$1'``. -/
def mCode1 (l : List Char) : Option (List Char × List Char) :=
  match l.dropWhile isWs with
  | c :: r =>
    if c = btk then
      if (r.takeWhile (fun x => x ≠ btk)).isEmpty then none
      else
        match r.dropWhile (fun x => x ≠ btk) with
        | _ :: r2 => some (r.takeWhile (fun x => x ≠ btk), r2.dropWhile isWs)
        | [] => none
    else none
  | [] => none

/-- `/\s*\[([^\]]+)\]\([^)]+\)\s*/g -> '$1'`. -/
def mLink (l : List Char) : Option (List Char × List Char) :=
  match l.dropWhile isWs with
  | c :: r =>
    if c = '[' then
      if (r.takeWhile (fun x => x ≠ ']')).isEmpty then none
      else
        match r.dropWhile (fun x => x ≠ ']') with
        | _ :: c2 :: r3 =>
          if c2 = '(' then
            if (r3.takeWhile (fun x => x ≠ ')')).isEmpty then none
            else
              match r3.dropWhile (fun x => x ≠ ')') with
              | _ :: r4 => some (r.takeWhile (fun x => x ≠ ']'), r4.dropWhile isWs)
              | [] => none
          else none
        | _ => none
    else none
  | [] => none

/-- `/\s*!\[[^\]]*\]\([^)]+\)\s*/g -> ''` (the alt text may be empty). -/
def mImg (l : List Char) : Option (List Char × List Char) :=
  match l.dropWhile isWs with
  | c :: r =>
    if c = '!' then
      match r with
      | c1 :: r1 =>
        if c1 = '[' then
          match r1.dropWhile (fun x => x ≠ ']') with
          | _ :: c2 :: r3 =>
            if c2 = '(' then
              if (r3.takeWhile (fun x => x ≠ ')')).isEmpty then none
              else
                match r3.dropWhile (fun x => x ≠ ')') with
                | _ :: r4 => some ([], r4.dropWhile isWs)
                | [] => none
            else none
          | _ => none
        else none
      | [] => none
    else none
  | [] => none

/-- Modelled from the spec: the DOM `innerHTML`/`textContent` round-trip at
the start of `cleanText`.  The browser DOM API is an external collaborator
that the spec places out of scope; the spec describes this step as part of
"strip HTML tags", so it is modelled as removing every `<...>` span (an
unterminated `<` consumes the rest, as the HTML fragment parser treats it
as an open tag; entity decoding is not modelled). -/
def domTextContent (l : List Char) : List Char := runScan mTagOpt l

/-- `cleanText` (App.jsx 27-56): the falsy guard, the DOM round-trip, then
the eleven global regex replacements and the final `trim()`, in source
order.  (For a string input the `typeof` branch takes the string as-is and
the `catch` fallback is unreachable.) -/
def cleanText (s : String) : String :=
  if s = "" then ""
  else
    ⟨wsTrimList (runScan mImg (runScan mLink (runScan mCode1 (runScan mFence
      (runScan mRun2 (runScan mWsRun (runScan mNumDot (runScan mDash
      (runScan mStar (runScan mHash (runScan mTagOpt
      (domTextContent s.data))))))))))))⟩

/-! ## C4: conditional idempotence of `cleanText` -/

/-- Characters that trigger none of the formatter's replacement patterns:
not a tag opener, heading/list/emphasis marker, digit, underscore,
backtick, link bracket or image bang. -/
def plainChar (c : Char) : Bool :=
  !(c = '<') && !(c = '#') && !(c = '*') && !(c = '-') && !c.isDigit &&
  !(c = '_') && !(c = btk) && !(c = '[') && !(c = '!')

/-- No two adjacent whitespace characters. -/
def noWsPair (l : List Char) : Prop :=
  l.Chain' (fun a b => isWs a = false ∨ isWs b = false)

/-- Every whitespace character is a plain space. -/
def wsSpaces (l : List Char) : Prop := ∀ c ∈ l, isWs c = true → c = ' '

/-! ## Rich-text formatter `formatMessageText` (App.jsx 59-184) -/

/-- The rest after the first `>` of a required-close tag, if any. -/
def findAfterGt : List Char → Option (List Char)
  | [] => none
  | '>' :: r => some r
  | _ :: r => findAfterGt r

/-- `/<[^>]*>/g -> ''` (unlike `cleanText`, the closing `>` is required). -/
def mTagReq (l : List Char) : Option (List Char × List Char) :=
  match l with
  | c :: rest =>
    if c = '<' then
      match findAfterGt rest with
      | some r2 => some ([], r2)
      | none => none
    else none
  | [] => none

/-- Global replacement of a literal pattern (the escape-sequence passes
`\"`, `\\`, `\n`, `\t`). -/
def mLit (pat rep : List Char) (l : List Char) : Option (List Char × List Char) :=
  if pat.isPrefixOf l then some (rep, l.drop pat.length) else none

/-- `/\s{2,}/g -> ' '` (only runs of two or more). -/
def mWs2 (l : List Char) : Option (List Char × List Char) :=
  match l with
  | a :: b :: _ => if isWs a && isWs b then some ([' '], l.dropWhile isWs) else none
  | _ => none

/-- Decimal digits of a natural number. -/
def natToCharsAux : ℕ → ℕ → List Char
  | 0, _ => []
  | fuel + 1, n =>
    if n < 10 then [Char.ofNat (48 + n)]
    else natToCharsAux fuel (n / 10) ++ [Char.ofNat (48 + n % 10)]

/-- Decimal representation of a natural number. -/
def natToChars (n : ℕ) : List Char := natToCharsAux (n + 1) n

/-- The `___CODE_BLOCK_i___` placeholder token. -/
def placeholderFor (i : ℕ) : List Char :=
  ("___CODE_BLOCK_").data ++ natToChars i ++ ("___").data

/-- Lazy search for the literal closing ```` ``` ````: split into the text
before it and the rest after it. -/
def findTripleTick : List Char → Option (List Char × List Char)
  | [] => none
  | c :: r =>
    if startsTicks3 (c :: r) then some ([], r.drop 2)
    else
      match findTripleTick r with
      | some (content, rest) => some (c :: content, rest)
      | none => none

/-- ``/```([\s\S]*?)```/g`` with the accumulating callback: each match is
replaced by the next placeholder and its lazy-minimal content pushed onto
the accumulator. -/
def extractCodeGo : ℕ → List Char → List (List Char) → List Char × List (List Char)
  | _, [], acc => ([], acc)
  | 0, l, acc => (l, acc)
  | fuel + 1, c :: rest, acc =>
    if startsTicks3 (c :: rest) then
      match findTripleTick ((c :: rest).drop 3) with
      | some (content, rest2) =>
        let res := extractCodeGo fuel rest2 (acc ++ [content])
        (placeholderFor acc.length ++ res.1, res.2)
      | none =>
        let res := extractCodeGo fuel rest acc
        (c :: res.1, res.2)
    else
      let res := extractCodeGo fuel rest acc
      (c :: res.1, res.2)

/-- Extract all fenced code blocks. -/
def extractCode (l : List Char) : List Char × List (List Char) :=
  extractCodeGo l.length l []

/-- `/(https?:\/\/[^\s\n]+)/g -> ' [url](url) '`. -/
def mUrlWrap (l : List Char) : Option (List Char × List Char) :=
  let k : Option ℕ :=
    if ("https://").data.isPrefixOf l then some 8
    else if ("http://").data.isPrefixOf l then some 7
    else none
  match k with
  | some k =>
    let tail := (l.drop k).takeWhile (fun c => !isWs c)
    if tail.isEmpty then none
    else
      let url := l.take k ++ tail
      some (([' ', '[']) ++ url ++ ([']', '(']) ++ url ++ ([')', ' ']),
        l.drop (k + tail.length))
  | none => none

/-- JS `String.prototype.split` with a non-empty string separator:
left-to-right, non-overlapping. -/
def jsSplitGo (sep : List Char) : ℕ → List Char → List Char → List (List Char)
  | _, [], cur => [cur.reverse]
  | 0, l, cur => [cur.reverse ++ l]
  | fuel + 1, c :: rest, cur =>
    if sep.isPrefixOf (c :: rest) then
      cur.reverse :: jsSplitGo sep fuel ((c :: rest).drop sep.length) []
    else jsSplitGo sep fuel rest (c :: cur)

/-- `l.split(sep)` for a non-empty separator. -/
def jsSplit (sep l : List Char) : List (List Char) := jsSplitGo sep l.length l []

/-- `/^\s*\d+\.\s+/.test(paragraph)`. -/
def testNumberedList (p : List Char) : Bool :=
  let l1 := p.dropWhile isWs
  if (l1.takeWhile Char.isDigit).isEmpty then false
  else
    match l1.dropWhile Char.isDigit with
    | d :: r2 =>
      d = '.' && (match r2 with | e :: _ => isWs e | [] => false)
    | [] => false

/-- The bullet class `[-•*]`. -/
def isBulletChar (c : Char) : Bool := c = '-' || c = Char.ofNat 8226 || c = '*'

/-- `/^\s*[-•*]\s+/.test(paragraph)`. -/
def testBulletList (p : List Char) : Bool :=
  match p.dropWhile isWs with
  | c :: r => isBulletChar c && (match r with | e :: _ => isWs e | [] => false)
  | [] => false

/-- The list-marker class `[\d.\-•*]`. -/
def isListMarkChar (c : Char) : Bool :=
  c.isDigit || c = '.' || c = '-' || c = Char.ofNat 8226 || c = '*'

/-- `item.replace(/^\s*[\d.\-•*]+\s*/, '').trim()` (anchored, first match
only; when the marker run is absent the item passes through to the trim). -/
def stripListMarker (item : List Char) : List Char :=
  let l1 := item.dropWhile isWs
  if (l1.takeWhile isListMarkChar).isEmpty then wsTrimList item
  else wsTrimList ((l1.dropWhile isListMarkChar).dropWhile isWs)

/-- Substring test (`String.prototype.includes`). -/
def containsSub (pat : List Char) : List Char → Bool
  | [] => pat.isEmpty
  | c :: r => pat.isPrefixOf (c :: r) || containsSub pat r

/-- The list branch of the paragraph classifier. -/
def processList (ordered : Bool) (p : List Char) : List Char :=
  let items := (jsSplit ['\n'] p).filter (fun it => !(wsTrimList it).isEmpty)
  let lis := items.map (fun it =>
    ("<li class=\"list-item\">").data ++ stripListMarker it ++ ("</li>").data)
  let tag : List Char := if ordered then ['o', 'l'] else ['u', 'l']
  ('<' :: tag) ++ (" class=\"message-list\">").data ++ lis.join ++
    ('<' :: '/' :: tag) ++ ['>']

/-- `/^([^:\n]+):\s*([\s\S]+)$/.exec(paragraph)`: the key is the text
before the first `:` or newline (the match fails if a newline comes
first); the greedy `\s*` backtracks by one character when everything after
the colon is whitespace, because `[\s\S]+` needs at least one character. -/
def kvMatch (p : List Char) : Option (List Char × List Char) :=
  let key := p.takeWhile (fun c => !(c = ':' || c = '\n'))
  if key.isEmpty then none
  else
    match p.drop key.length with
    | c :: rest =>
      if c = ':' then
        if rest.isEmpty then none
        else
          let ws := rest.takeWhile isWs
          let rest2 := rest.drop ws.length
          if rest2.isEmpty then some (key, rest.drop (ws.length - 1))
          else some (key, rest2)
      else none
    | [] => none

/-- The exact template literal of the key-value branch (including its
newlines and indentation). -/
def kvTemplate (key value : List Char) : List Char :=
  ("\n        <div class=\"key-value\">\n          <span class=\"key\">").data ++
    key ++ (":</span>\n          <span class=\"value\">").data ++
    wsTrimList value ++ ("</span>\n        </div>").data

/-- `paragraph.endsWith(':')`. -/
def endsWithColon (p : List Char) : Bool := p.reverse.head? = some ':'

/-- The per-paragraph classifier, in source precedence order: empty, list,
section header, key-value pair, default paragraph. -/
def processParagraph (p0 : List Char) : List Char :=
  let p := wsTrimList p0
  if p.isEmpty then []
  else if testNumberedList p then processList true p
  else if testBulletList p then processList false p
  else if endsWithColon p && !containsSub ("http").data p then
    ("<h3 class=\"section-header\">").data ++ p ++ ("</h3>").data
  else
    match kvMatch p with
    | some kv => kvTemplate kv.1 kv.2
    | none => ("<p class=\"message-paragraph\">").data ++ p ++ ("</p>").data

/-- `url.replace(/[\s<>"]+/g, '').trim()` (removing every such character
makes the trailing trim a no-op). -/
def cleanUrlOf (url : List Char) : List Char :=
  url.filter (fun c => !(isWs c || c = '<' || c = '>' || c = '"'))

/-- Prefix `https://` onto a URL lacking an `http(s)://` scheme. -/
def ensureScheme (u : List Char) : List Char :=
  if ("http://").data.isPrefixOf u || ("https://").data.isPrefixOf u then u
  else ("https://").data ++ u

/-- The anchor markup emitted for links. -/
def anchorOf (url text : List Char) : List Char :=
  ("<a href=\"").data ++ url ++
    ("\" target=\"_blank\" rel=\"noopener noreferrer\" class=\"message-link\">").data ++
    text ++ ("</a>").data

/-- `/\[([^\]]+)\]\(([^)]+)\)/g` with the URL-cleaning callback. -/
def mMdLink (l : List Char) : Option (List Char × List Char) :=
  match l with
  | c :: r =>
    if c = '[' then
      let txt := r.takeWhile (fun x => x ≠ ']')
      if txt.isEmpty then none
      else
        match r.drop txt.length with
        | _ :: c2 :: r3 =>
          if c2 = '(' then
            let url := r3.takeWhile (fun x => x ≠ ')')
            if url.isEmpty then none
            else
              match r3.drop url.length with
              | _ :: r4 => some (anchorOf (ensureScheme (cleanUrlOf url)) txt, r4)
              | [] => none
          else none
        | _ => none
    else none
  | [] => none

/-- `/(https?:\/\/[^\s\n<]+)/g` with the already-anchored guard (the
matched text can never contain `<`, so the guard never fires; it is
modelled anyway). -/
def mNakedUrl (l : List Char) : Option (List Char × List Char) :=
  let k : Option ℕ :=
    if ("https://").data.isPrefixOf l then some 8
    else if ("http://").data.isPrefixOf l then some 7
    else none
  match k with
  | some k =>
    let tail := (l.drop k).takeWhile (fun c => !(isWs c || c = '<'))
    if tail.isEmpty then none
    else
      let url := l.take k ++ tail
      let rep := if containsSub ("<a ").data url then url else anchorOf url url
      some (rep, l.drop (k + tail.length))
  | none => none

/-- JS `$`-substitution in a string replacement (string pattern, so there
are no capture groups and `$1`-style references stay literal): `$$`, `$&`,
`` $` `` and the `$`-quote form are interpreted. -/
def applyDollarGo (matched before after : List Char) : ℕ → List Char → List Char
  | 0, rep => rep
  | _ + 1, [] => []
  | fuel + 1, c :: r =>
    if c = '$' then
      match r with
      | d :: r2 =>
        if d = '$' then '$' :: applyDollarGo matched before after fuel r2
        else if d = '&' then matched ++ applyDollarGo matched before after fuel r2
        else if d = btk then before ++ applyDollarGo matched before after fuel r2
        else if d = Char.ofNat 39 then after ++ applyDollarGo matched before after fuel r2
        else c :: applyDollarGo matched before after fuel r
      | [] => ['$']
    else c :: applyDollarGo matched before after fuel r

/-- Apply `$`-substitution to a whole replacement string. -/
def applyDollar (rep matched before after : List Char) : List Char :=
  applyDollarGo matched before after rep.length rep

/-- Index of the first occurrence of a substring. -/
def findSubIdx (pat : List Char) : List Char → Option ℕ
  | [] => if pat.isEmpty then some 0 else none
  | c :: r =>
    if pat.isPrefixOf (c :: r) then some 0
    else (findSubIdx pat r).map (· + 1)

/-- JS `String.prototype.replace` with a string pattern: replace the first
occurrence only, applying `$`-substitution to the replacement. -/
def jsReplaceFirst (pat rep l : List Char) : List Char :=
  match findSubIdx pat l with
  | some i =>
    l.take i ++ applyDollar rep pat (l.take i) (l.drop (i + pat.length)) ++
      l.drop (i + pat.length)
  | none => l

/-- The restore loop: `codeBlocks.forEach((code, index) => ...)`, replacing
each placeholder (first occurrence) by the `<pre><code>` wrapping. -/
def restoreCode (codeBlocks : List (List Char)) (l : List Char) : List Char :=
  codeBlocks.enum.foldl
    (fun txt ic =>
      jsReplaceFirst (placeholderFor ic.1)
        (("<pre class=\"code-block\"><code>").data ++ ic.2 ++ ("</code></pre>").data)
        txt)
    l

/-- Greedy `\s+` with backtracking against the following `(.+?)`: the
longest whitespace prefix of length at least 1 whose following character
exists and is not a newline. -/
def pickWsPrefix (rest : List Char) : ℕ → Option ℕ
  | 0 => none
  | k + 1 =>
    match (rest.drop (k + 1)).head? with
    | some c => if c ≠ '\n' then some (k + 1) else pickWsPrefix rest k
    | none => pickWsPrefix rest k

/-- One attempted match of `/^#{n}\s+(.+?)(\n|$)/` at a line start (`.`
does not cross a newline, so the lazy group runs to the end of the line;
the captured `(\n|$)` is consumed but not re-emitted by the `$1`
replacement). -/
def headerLineMatch (nhash : ℕ) (l : List Char) : Option (List Char × List Char) :=
  if (List.replicate nhash '#').isPrefixOf l then
    let rest := l.drop nhash
    let w := rest.takeWhile isWs
    if w.isEmpty then none
    else
      match pickWsPrefix rest w.length with
      | some k =>
        let contentStart := rest.drop k
        let content := contentStart.takeWhile (fun c => c ≠ '\n')
        let rest2 := contentStart.drop content.length
        some (content, match rest2 with
          | '\n' :: r => r
          | _ => rest2)
      | none => none
  else none

/-- The multiline (`gm`) scan for a header pattern: match attempts occur
only at line starts. -/
def headerScanGo (nhash : ℕ) (openTag closeTag : List Char) :
    ℕ → Bool → List Char → List Char
  | _, _, [] => []
  | 0, _, l => l
  | fuel + 1, atStart, c :: rest =>
    if atStart then
      match headerLineMatch nhash (c :: rest) with
      | some cr =>
        openTag ++ cr.1 ++ closeTag ++ headerScanGo nhash openTag closeTag fuel true cr.2
      | none => c :: headerScanGo nhash openTag closeTag fuel (c = '\n') rest
    else c :: headerScanGo nhash openTag closeTag fuel (c = '\n') rest

/-- Run a header replacement over a whole value. -/
def headerScan (nhash : ℕ) (openTag closeTag : List Char) (l : List Char) : List Char :=
  headerScanGo nhash openTag closeTag l.length true l

/-- `/\*\*([^*]+)\*\*/g -> '<strong>$1</strong>'`. -/
def mBold (l : List Char) : Option (List Char × List Char) :=
  match l with
  | a :: b :: r =>
    if a = '*' && b = '*' then
      let content := r.takeWhile (fun c => c ≠ '*')
      if content.isEmpty then none
      else
        match r.drop content.length with
        | c1 :: c2 :: r2 =>
          if c1 = '*' && c2 = '*' then
            some (("<strong>").data ++ content ++ ("</strong>").data, r2)
          else none
        | _ => none
    else none
  | _ => none

/-- `/\*([^*]+)\*/g -> '<em>$1</em>'`. -/
def mEm (l : List Char) : Option (List Char × List Char) :=
  match l with
  | c :: r =>
    if c = '*' then
      let content := r.takeWhile (fun x => x ≠ '*')
      if content.isEmpty then none
      else
        match r.drop content.length with
        | _ :: r2 => some (("<em>").data ++ content ++ ("</em>").data, r2)
        | [] => none
    else none
  | [] => none

/-- `` /`([^`]+)`/g -> '<code class="inline-code">$1</code>' ``. -/
def mICode (l : List Char) : Option (List Char × List Char) :=
  match l with
  | c :: r =>
    if c = btk then
      let content := r.takeWhile (fun x => x ≠ btk)
      if content.isEmpty then none
      else
        match r.drop content.length with
        | _ :: r2 =>
          some (("<code class=\"inline-code\">").data ++ content ++ ("</code>").data, r2)
        | [] => none
    else none
  | [] => none

/-- The tag alternation `(p|h2|h3|div|pre|ul|ol)`, in source order (the
first alternative compatible with the rest of the pattern wins, as in the
regex engine). -/
def tagAlts : List (List Char) :=
  [['p'], ['h', '2'], ['h', '3'], ['d', 'i', 'v'], ['p', 'r', 'e'], ['u', 'l'],
    ['o', 'l']]

/-- `/<\/(p|h2|h3|div|pre|ul|ol)>\s*<(p|h2|h3|div|pre|ul|ol)/g ->
'</$1>\n<$2'`. -/
def mSpaceA (l : List Char) : Option (List Char × List Char) :=
  match l with
  | '<' :: '/' :: r =>
    match tagAlts.find? (fun a => (a ++ ['>']).isPrefixOf r) with
    | some a =>
      match (r.drop (a.length + 1)).dropWhile isWs with
      | '<' :: r3 =>
        match tagAlts.find? (fun a2 => a2.isPrefixOf r3) with
        | some a2 =>
          some (('<' :: '/' :: a) ++ ('>' :: '\n' :: '<' :: a2), r3.drop a2.length)
        | none => none
      | _ => none
    | none => none
  | _ => none

/-- `/<\/(li)>\s*<(li)/g -> '</$1><$2'`. -/
def mSpaceB (l : List Char) : Option (List Char × List Char) :=
  match l with
  | '<' :: '/' :: 'l' :: 'i' :: '>' :: r =>
    match r.dropWhile isWs with
    | '<' :: 'l' :: 'i' :: r2 => some (("</li><li").data, r2)
    | _ => none
  | _ => none

/-- `/<\/(h2|h3)>/g -> '</$1>\n'`. -/
def mSpaceC (l : List Char) : Option (List Char × List Char) :=
  match l with
  | '<' :: '/' :: 'h' :: c :: '>' :: r =>
    if c = '2' || c = '3' then some (['<', '/', 'h', c, '>', '\n'], r) else none
  | _ => none

/-- Lazy split at the first occurrence of a literal substring. -/
def findSubSplit (pat : List Char) : List Char → Option (List Char × List Char)
  | [] => none
  | c :: r =>
    if pat.isPrefixOf (c :: r) then some ([], (c :: r).drop pat.length)
    else
      match findSubSplit pat r with
      | some cr => some (c :: cr.1, cr.2)
      | none => none

/-- Replace every newline of the matched text by `<br>`. -/
def replaceNl (l : List Char) : List Char :=
  (l.map (fun c => if c = '\n' then ("<br>").data else [c])).join

/-- `/<pre[^>]*>([\s\S]*?)<\/pre>/g` with the callback replacing the whole
match by itself with newlines turned into `<br>`. -/
def mSpaceD (l : List Char) : Option (List Char × List Char) :=
  match l with
  | '<' :: 'p' :: 'r' :: 'e' :: r =>
    let attrs := r.takeWhile (fun c => c ≠ '>')
    match r.drop attrs.length with
    | '>' :: r2 =>
      match findSubSplit ("</pre>").data r2 with
      | some cr =>
        some (replaceNl (("<pre").data ++ attrs ++ ['>'] ++ cr.1 ++ ("</pre>").data),
          cr.2)
      | none => none
    | _ => none
  | _ => none

/-- `formatMessageText` (App.jsx 59-184): the falsy guard and all
replacement passes in source order: tag stripping, escape literals,
whitespace collapsing (runs of two or more), trim; code-block extraction;
URL wrapping; paragraph split/classify/join; markdown links; naked URLs;
code-block restore; `#`/`##` headers; bold, italic, inline code; the four
spacing fixups. -/
def formatMessageText (s : String) : String :=
  if s = "" then ""
  else
    let t5 := runScan (mLit ['\\', 't'] [' ', ' '])
      (runScan (mLit ['\\', 'n'] ['\n'])
        (runScan (mLit ['\\', '\\'] ['\\'])
          (runScan (mLit ['\\', '"'] ['"'])
            (runScan mTagReq s.data))))
    let t7 := wsTrimList (runScan mWs2 t5)
    let ec := extractCode t7
    let t9 := runScan mUrlWrap ec.1
    let t10 := List.intercalate ['\n'] ((jsSplit ['\n', '\n'] t9).map processParagraph)
    let t13 := restoreCode ec.2 (runScan mNakedUrl (runScan mMdLink t10))
    let t15 := headerScan 2 (("<h3 class=\"message-subheader\">").data) (("</h3>").data)
      (headerScan 1 (("<h2 class=\"message-header\">").data) (("</h2>").data) t13)
    let t18 := runScan mICode (runScan mEm (runScan mBold t15))
    ⟨runScan mSpaceD (runScan mSpaceC (runScan mSpaceB (runScan mSpaceA t18)))⟩

/-! ## Membership structure of `heatmapData` -/

/-- The code's coordinate filter coincides with the spec-side validity
condition: finite coordinates within `[-90,90]x[-180,180]` and within the
region bounds. -/
theorem coordPasses_eq_goodCoordB (x y : JSNum) :
    coordPasses x y = goodCoordB x y := by
  rcases x with la | _ | _ | _ <;> rcases y with lg | _ | _ | _
  · by_cases h1 : (90:ℚ) < |la|
    · rcases lt_abs.mp h1 with h | h
      · have hn : ¬(la ≤ 90) := not_le.mpr h
        simp [coordPasses, goodCoordB, JSNum.isNaNb, JSNum.jsAbs, JSNum.jsLt, JSNum.jsLe, h1, hn]
      · have hn : ¬(-90 ≤ la) := by linarith
        simp [coordPasses, goodCoordB, JSNum.isNaNb, JSNum.jsAbs, JSNum.jsLt, JSNum.jsLe, h1, hn]
    · by_cases h2 : (180:ℚ) < |lg|
      · rcases lt_abs.mp h2 with h | h
        · have hn : ¬(lg ≤ 180) := not_le.mpr h
          simp [coordPasses, goodCoordB, JSNum.isNaNb, JSNum.jsAbs, JSNum.jsLt, JSNum.jsLe, h1, h2, hn]
        · have hn : ¬(-180 ≤ lg) := by linarith
          simp [coordPasses, goodCoordB, JSNum.isNaNb, JSNum.jsAbs, JSNum.jsLt, JSNum.jsLe, h1, h2, hn]
      · have ha := abs_le.mp (not_lt.mp h1)
        have hb := abs_le.mp (not_lt.mp h2)
        simp [coordPasses, goodCoordB, JSNum.isNaNb, JSNum.jsAbs, JSNum.jsLt, JSNum.jsLe,
          h1, h2, ha.1, ha.2, hb.1, hb.2]
  all_goals simp [coordPasses, goodCoordB, JSNum.isNaNb, JSNum.jsAbs, JSNum.jsLt, JSNum.jsLe]

/-- Every point of `heatmapData` arises from a record of the input list that
passes the coordinate-and-region filter, and itself passes the final NaN
filter. -/
theorem mem_heatmapData {floats : List (Option ArgoFloat)} {mode : String}
    {p : HeatPoint} (hp : p ∈ heatmapData floats mode) :
    ∃ f, some f ∈ floats ∧ floatPasses (some f) = true ∧
      p = mkHeatPoint mode f ∧ heatPointValid p = true := by
  unfold heatmapData at hp
  split at hp
  · exact absurd hp (List.not_mem_nil p)
  · rw [List.mem_filter] at hp
    obtain ⟨hmem, hvalid⟩ := hp
    rw [List.mem_map] at hmem
    obtain ⟨f, hf, hmk⟩ := hmem
    rw [List.mem_filterMap] at hf
    obtain ⟨of, hof, hid⟩ := hf
    rw [List.mem_filter] at hof
    obtain ⟨hofmem, hpass⟩ := hof
    subst hmk
    cases of with
    | none => simp at hid
    | some g =>
      simp only [id_eq, Option.some.injEq] at hid
      subst hid
      exact ⟨g, hofmem, hpass, rfl, hvalid⟩

/-- C1: for every list of ArgoFloat records, every record whose latitude or
longitude fails to parse to a finite number, or falls outside
`[-90,90]x[-180,180]`, or falls outside the fixed region bounds (latitude
in `[-30,30]`, longitude in `[30,100]`), never appears in the derived
heatmap point list produced by `heatmapData`. -/
theorem C1_invalid_record_never_in_heatmap
    (floats : List (Option ArgoFloat)) (mode : String) (f : ArgoFloat)
    (_hmem : some f ∈ floats) (hbad : goodRecB f = false) :
    mkHeatPoint mode f ∉ heatmapData floats mode := by
  intro hin
  obtain ⟨g, _, hpass, heq, _⟩ := mem_heatmapData hin
  have hlat : f.lat.parseFloatJ = g.lat.parseFloatJ := congrArg HeatPoint.lat heq
  have hlng : f.lng.parseFloatJ = g.lng.parseFloatJ := congrArg HeatPoint.lng heq
  have hgood : goodRecB g = true := by
    have h2 : coordPasses g.lat.parseFloatJ g.lng.parseFloatJ = true := hpass
    unfold goodRecB
    rwa [coordPasses_eq_goodCoordB] at h2
  unfold goodRecB at hbad hgood
  rw [hlat, hlng, hgood] at hbad
  exact Bool.noConfusion hbad

theorem C1_witness :
    some c1BadFloat ∈ [some c1BadFloat] ∧ goodRecB c1BadFloat = false ∧
      mkHeatPoint "temperature" c1BadFloat ∉ heatmapData [some c1BadFloat] "temperature" :=
  ⟨by simp, by decide,
    C1_invalid_record_never_in_heatmap [some c1BadFloat] "temperature" c1BadFloat
      (by simp) (by decide)⟩

/-! ## C2: salinity parsing -/

theorem takeWhile_append_space (l1 l2 : List Char) (h : ∀ c ∈ l1, c ≠ ' ') :
    (l1 ++ ' ' :: l2).takeWhile (fun c => c ≠ ' ') = l1 := by
  induction l1 with
  | nil => simp [List.takeWhile]
  | cons a t ih =>
    have ha : a ≠ ' ' := h a (by simp)
    have ht := ih (fun c hc => h c (by simp [hc]))
    simp_all [List.takeWhile_cons]

theorem firstField_append (pre rest : String) (h : ∀ c ∈ pre.data, c ≠ ' ') :
    firstField (pre ++ " " ++ rest) = pre := by
  unfold firstField
  have hsp : (" ").data = [' '] := rfl
  have hd : (pre ++ " " ++ rest).data = pre.data ++ ' ' :: rest.data := by
    simp [String.data_append, hsp]
  rw [hd, takeWhile_append_space _ _ h]

theorem C2_salinity_parsing :
    (∀ (pre rest : String), (∀ c ∈ pre.data, c ≠ ' ') →
      salinityValue (withSalinity (.str (pre ++ " " ++ rest)))
        = orZero (parseFloatStr pre)) ∧
    salinityValue (withSalinity (.str "34.5 PSU")) = .fin (mkRat 69 2) ∧
    salinityValue (withSalinity (.str "abc")) = .fin 0 ∧
    salinityValue (withSalinity .undefV) = .fin 0 := by
  refine ⟨?_, by decide, by decide, by decide⟩
  intro pre rest h
  have hne : (pre ++ " " ++ rest) ≠ "" := by
    intro he
    have hdata := congrArg String.data he
    have hsp : (" ").data = [' '] := rfl
    simp [String.data_append, hsp] at hdata
  have hstep : salinityValue (withSalinity (.str (pre ++ " " ++ rest)))
      = if (pre ++ " " ++ rest) = "" then .fin 0
        else orZero (parseFloatStr (firstField (pre ++ " " ++ rest))) := rfl
  rw [hstep, if_neg hne, firstField_append pre rest h]

theorem C2_witness :
    salinityValue (withSalinity (.str ("34.5" ++ " " ++ "PSU")))
      = orZero (parseFloatStr "34.5") :=
  C2_salinity_parsing.1 "34.5" "PSU" (by decide)

/-! ## C3: value selection by mode, and the NaN-only final filter -/

/-- C3 (amended): for every retained record the derived point's `value`
equals its temperature when the active mode is `"temperature"` and its
salinity otherwise, and every point of the derived list has a non-NaN
`value`; infinite (non-finite but non-NaN) values are NOT excluded, which
is what the counterexample exhibits. -/
theorem C3_value_selection_and_nan_filter
    (floats : List (Option ArgoFloat)) (mode : String) (p : HeatPoint)
    (hp : p ∈ heatmapData floats mode) :
    p.value.isNaNb = false ∧
    ∃ f, some f ∈ floats ∧ floatPasses (some f) = true ∧
      p.value = (if mode = "temperature" then tempValue f else salinityValue f) := by
  obtain ⟨f, hf, hpass, heq, hvalid⟩ := mem_heatmapData hp
  refine ⟨?_, f, hf, hpass, ?_⟩
  · have hv := hvalid
    simp only [heatPointValid, Bool.and_eq_true, Bool.not_eq_true'] at hv
    exact hv.1.1
  · rw [heq]; rfl

/-- C3 counterexample: a heat point with non-finite `value` (+Infinity, from
`parseFloat("Infinity")`) is NOT excluded from the derived heatmap point
list, contrary to the claim that any non-finite value excludes the point
(the code filters only NaN). -/
theorem C3_counterexample :
    c3InfPoint ∈ heatmapData [some c3InfFloat] "temperature" ∧
      c3InfPoint.value.isFiniteb = false :=
  ⟨by decide, by decide⟩

theorem C3_witness :
    c3GoodPoint ∈ heatmapData [some c3GoodFloat] "temperature" ∧
    (c3GoodPoint.value.isNaNb = false ∧
      ∃ f, some f ∈ [some c3GoodFloat] ∧ floatPasses (some f) = true ∧
        c3GoodPoint.value
          = (if "temperature" = "temperature" then tempValue f else salinityValue f)) :=
  ⟨by decide,
    C3_value_selection_and_nan_filter [some c3GoodFloat] "temperature" c3GoodPoint
      (by decide)⟩

theorem filter_cons_orUndef (k : String) (v : Option String)
    (rest : List (String × QueryVal)) :
    ((k, orUndef v) :: rest).filter emitParam
      = strParamOf k v ++ rest.filter emitParam := by
  rcases v with _ | s
  · simp [orUndef, strParamOf, List.filter, emitParam]
  · by_cases hs : s = "" <;> simp [orUndef, strParamOf, List.filter, emitParam, hs]

theorem filter_cons_depth (k : String) (v : Option String)
    (rest : List (String × QueryVal)) :
    ((k, depthQueryVal v) :: rest).filter emitParam
      = depthParamOf k v ++ rest.filter emitParam := by
  rcases v with _ | s
  · simp [depthQueryVal, depthParamOf, List.filter, emitParam]
  · by_cases hs : s = "" <;> simp [depthQueryVal, depthParamOf, List.filter, emitParam, hs]

/-- C6: the filter mapping renames the camelCase UI fields to snake_case
backend names, parses `depthMax` with `parseFloat` and passes every other
field through as a string, and never emits a parameter for a field whose
UI value is the empty string or `undefined`. -/
theorem C6_filter_param_mapping (f : FilterCriteria) :
    emittedParams f =
      strParamOf "lat_min" f.latMin ++ strParamOf "lat_max" f.latMax ++
      strParamOf "lon_min" f.lonMin ++ strParamOf "lon_max" f.lonMax ++
      depthParamOf "depth_max" f.depthMax ++
      strParamOf "start_date" f.startDate ++ strParamOf "end_date" f.endDate ∧
    ∀ kv ∈ emittedParams f, kv.2 ≠ QueryVal.undefV ∧ kv.2 ≠ QueryVal.str "" := by
  constructor
  · show (apiFilters f).filter emitParam = _
    rw [apiFilters, filter_cons_orUndef, filter_cons_orUndef, filter_cons_orUndef,
      filter_cons_orUndef, filter_cons_depth, filter_cons_orUndef, filter_cons_orUndef]
    simp [List.append_assoc]
  · intro kv hkv
    rw [emittedParams, List.mem_filter] at hkv
    have h2 := hkv.2
    simp only [emitParam, Bool.and_eq_true, Bool.not_eq_true', decide_eq_false_iff_not] at h2
    exact h2

theorem C6_witness :
    emittedParams ⟨some "5", some "", none, some "10", some "abc",
        some "2020-01-01", none⟩ =
      strParamOf "lat_min" (some "5") ++ strParamOf "lat_max" (some "") ++
      strParamOf "lon_min" none ++ strParamOf "lon_max" (some "10") ++
      depthParamOf "depth_max" (some "abc") ++
      strParamOf "start_date" (some "2020-01-01") ++ strParamOf "end_date" none ∧
    ∀ kv ∈ emittedParams ⟨some "5", some "", none, some "10", some "abc",
        some "2020-01-01", none⟩,
      kv.2 ≠ QueryVal.undefV ∧ kv.2 ≠ QueryVal.str "" :=
  C6_filter_param_mapping ⟨some "5", some "", none, some "10", some "abc",
    some "2020-01-01", none⟩

/-- C10 (implicit): a non-empty `depthMax` that does not parse to a number
maps to a NaN `depth_max` value, which passes the emission guard (it is
neither `undefined` nor the empty string), so `depth_max=NaN` is sent to
the backend rather than omitted. -/
theorem C10_nan_depth_emitted (f : FilterCriteria) (s : String)
    (hd : f.depthMax = some s) (hs : s ≠ "") (hn : parseFloatStr s = .nan) :
    ("depth_max", QueryVal.num .nan) ∈ emittedParams f := by
  have hmem : ("depth_max", QueryVal.num (parseFloatStr s)) ∈ apiFilters f := by
    simp [apiFilters, depthQueryVal, hd, hs]
  rw [hn] at hmem
  rw [emittedParams, List.mem_filter]
  exact ⟨hmem, by simp [emitParam]⟩

theorem C10_witness :
    ("depth_max", QueryVal.num .nan) ∈
      emittedParams ⟨none, none, none, none, some "abc", none, none⟩ :=
  C10_nan_depth_emitted ⟨none, none, none, none, some "abc", none, none⟩ "abc"
    rfl (by decide) (by decide)

theorem round2_close (q : ℚ) : |round2 q - q| ≤ 1/200 := by
  have h1 : ((⌊q * 100 + 1/2⌋ : ℤ) : ℚ) ≤ q * 100 + 1/2 := Int.floor_le _
  have h2 : q * 100 + 1/2 - 1 < ((⌊q * 100 + 1/2⌋ : ℤ) : ℚ) := Int.sub_one_lt_floor _
  rw [round2, abs_le]
  constructor <;> linarith

theorem round2_jitter (x j b : ℚ) (hj : |j| ≤ b) :
    |round2 (x + j) - x| ≤ 1/200 + b := by
  have h1 := round2_close (x + j)
  have h2 : round2 (x + j) - x = (round2 (x + j) - (x + j)) + j := by ring
  rw [h2]
  calc |(round2 (x + j) - (x + j)) + j|
      ≤ |round2 (x + j) - (x + j)| + |j| := abs_add _ _
    _ ≤ 1/200 + b := add_le_add h1 hj

/-- C8: the generator produces exactly 101 points with depths 0,10,...,1000
in order; temperature equals the per-call base decreased linearly with
depth up to a jitter of at most 51/200; salinity equals the per-call base
(constant below 200 m, increasing linearly beyond 200 m) up to a jitter of
at most 11/200. -/
theorem C8_depth_profile (rand : ℕ → ℚ) (hr : ∀ n, 0 ≤ rand n ∧ rand n < 1) :
    (generateDepthProfile rand).length = 101 ∧
    ∀ i, i < 101 →
      ∃ p, (generateDepthProfile rand).get? i = some p ∧
        p.depth = 10 * i ∧
        |p.temperature - (profBaseTemp rand - 10 * (i : ℚ) * 0.02)| ≤ 51/200 ∧
        (i < 20 → |p.salinity - profBaseSalinity rand| ≤ 11/200) ∧
        (20 ≤ i → |p.salinity - (profBaseSalinity rand
            + (10 * (i : ℚ) - 200) * 0.005)| ≤ 11/200) := by
  constructor
  · simp [generateDepthProfile]
  · intro i hi
    have hget : (generateDepthProfile rand).get? i = some (genPoint rand i) := by
      simp [generateDepthProfile, List.get?_map, List.get?_range, hi]
    refine ⟨genPoint rand i, hget, rfl, ?_, ?_, ?_⟩
    · have hj : |rand (2 + 2 * i) * 0.5 - 0.25| ≤ 1/4 := by
        obtain ⟨h0, h1⟩ := hr (2 + 2 * i)
        rw [abs_le]; constructor <;> nlinarith
      simp only [genPoint]
      exact le_trans (round2_jitter _ _ (1/4) hj) (by norm_num)
    · intro hlt
      have hd : (10 * (i : ℚ)) < 200 := by
        have hc : (i : ℚ) < 20 := by exact_mod_cast hlt
        linarith
      have hj : |rand (3 + 2 * i) * 0.1 - 0.05| ≤ 1/20 := by
        obtain ⟨h0, h1⟩ := hr (3 + 2 * i)
        rw [abs_le]; constructor <;> nlinarith
      simp only [genPoint, if_pos hd, add_zero]
      exact le_trans (round2_jitter _ _ (1/20) hj) (by norm_num)
    · intro hge
      have hd : ¬((10 * (i : ℚ)) < 200) := by
        have hc : (20 : ℚ) ≤ (i : ℚ) := by exact_mod_cast hge
        push_neg
        linarith
      have hj : |rand (3 + 2 * i) * 0.1 - 0.05| ≤ 1/20 := by
        obtain ⟨h0, h1⟩ := hr (3 + 2 * i)
        rw [abs_le]; constructor <;> nlinarith
      simp only [genPoint, if_neg hd]
      exact le_trans (round2_jitter _ _ (1/20) hj) (by norm_num)

theorem C8_witness :
    (generateDepthProfile (fun _ => 1/2)).length = 101 ∧
    ∀ i, i < 101 →
      ∃ p, (generateDepthProfile (fun _ => 1/2)).get? i = some p ∧
        p.depth = 10 * i ∧
        |p.temperature - (profBaseTemp (fun _ => 1/2) - 10 * (i : ℚ) * 0.02)| ≤ 51/200 ∧
        (i < 20 → |p.salinity - profBaseSalinity (fun _ => 1/2)| ≤ 11/200) ∧
        (20 ≤ i → |p.salinity - (profBaseSalinity (fun _ => 1/2)
            + (10 * (i : ℚ) - 200) * 0.005)| ≤ 11/200) :=
  C8_depth_profile (fun _ => 1/2) (fun _ => ⟨by norm_num, by norm_num⟩)

/-- C9: whenever the `/ask` request fails (network error or non-2xx), the
new state appends exactly the untouched user message followed by one bot
message flagged `isError := true` with the generic retry-later text, and
the loading flag ends cleared; among the appended messages exactly the
error message is flagged. -/
theorem C9_error_path (st : ChatState) (now : ℕ) (outcome : FetchOutcome)
    (hfail : outcome = .httpError ∨ outcome = .networkError)
    (hne : jsTrim st.inputValue ≠ "") :
    handleSendMessage st now outcome =
      { messages := st.messages ++ [userMessageOf (jsTrim st.inputValue) now,
          errorBotMessage now],
        inputValue := "", isLoading := false } ∧
    (errorBotMessage now).isError = true ∧
    (errorBotMessage now).sender = "bot" ∧
    ((handleSendMessage st now outcome).messages.drop st.messages.length).filter
        (fun m => m.isError) = [errorBotMessage now] := by
  have hstep : handleSendMessage st now outcome =
      { messages := st.messages ++ [userMessageOf (jsTrim st.inputValue) now,
          errorBotMessage now],
        inputValue := "", isLoading := false } := by
    rcases hfail with h | h <;> subst h <;> simp [handleSendMessage, hne]
  refine ⟨hstep, rfl, rfl, ?_⟩
  rw [hstep]
  simp [List.drop_left, List.filter, userMessageOf, errorBotMessage]

theorem C9_witness :
    handleSendMessage ⟨[], "hello", false⟩ 42 .networkError =
      { messages := ([] : List ChatMessage) ++ [userMessageOf (jsTrim "hello") 42,
          errorBotMessage 42],
        inputValue := "", isLoading := false } ∧
    (errorBotMessage 42).isError = true ∧
    (errorBotMessage 42).sender = "bot" ∧
    ((handleSendMessage ⟨[], "hello", false⟩ 42 .networkError).messages.drop
        ([] : List ChatMessage).length).filter (fun m => m.isError)
      = [errorBotMessage 42] :=
  C9_error_path ⟨[], "hello", false⟩ 42 .networkError (Or.inr rfl) (by decide)

/-! ## Nearest-point lookup (handleMapClick) -/

namespace JSNum

theorem jsLt_ne_nan {x y : JSNum} (h : jsLt x y = true) : x ≠ nan ∧ y ≠ nan := by
  cases x <;> cases y <;> simp_all [jsLt]

theorem jsLt_nan_left (x : JSNum) : jsLt nan x = false := by cases x <;> rfl

theorem jsLe_of_not_lt {x y : JSNum} (hx : x ≠ nan) (hy : y ≠ nan)
    (h : jsLt x y = false) : jsLe y x = true := by
  cases x <;> cases y <;> simp_all [jsLt, jsLe] <;> linarith

theorem jsLe_trans {x y z : JSNum} (h1 : jsLe x y = true) (h2 : jsLe y z = true) :
    jsLe x z = true := by
  cases x <;> cases y <;> cases z <;> simp_all [jsLe] <;> linarith

theorem jsLt_not_of_le {x y : JSNum} (h : jsLe x y = true) : jsLt y x = false := by
  cases x <;> cases y <;> simp_all [jsLe, jsLt] <;> linarith

theorem jsLe_of_lt {x y : JSNum} (h : jsLt x y = true) : jsLe x y = true := by
  cases x <;> cases y <;> simp_all [jsLt, jsLe] <;> linarith

theorem jsLt_of_le_of_lt {x y z : JSNum} (h1 : jsLe x y = true)
    (h2 : jsLt y z = true) : jsLt x z = true := by
  cases x <;> cases y <;> cases z <;> simp_all [jsLe, jsLt] <;> linarith

end JSNum

/-- Invariant of the minimum-search fold. -/
theorem nearestFold_go (clat clng : ℚ) :
    ∀ (pts : List HeatPoint) (o : Option HeatPoint) (m : JSNum),
    m ≠ .nan →
    (∀ q, o = some q → distSqJS clat clng q = m) →
    (pts.foldl (nearestStep clat clng) (o, m)).2 ≠ .nan ∧
    (∀ q, (pts.foldl (nearestStep clat clng) (o, m)).1 = some q →
        distSqJS clat clng q = (pts.foldl (nearestStep clat clng) (o, m)).2) ∧
    JSNum.jsLe (pts.foldl (nearestStep clat clng) (o, m)).2 m = true ∧
    (∀ p ∈ pts, JSNum.jsLt (distSqJS clat clng p)
        (pts.foldl (nearestStep clat clng) (o, m)).2 = false) ∧
    ((pts.foldl (nearestStep clat clng) (o, m)) = (o, m) ∨
      ∃ p ∈ pts, (pts.foldl (nearestStep clat clng) (o, m)).1 = some p) := by
  intro pts
  induction pts with
  | nil =>
    intro o m hm ho
    refine ⟨hm, ?_, ?_, ?_, Or.inl rfl⟩
    · intro q hq
      exact ho q hq
    · cases m <;> simp_all [JSNum.jsLe]
    · intro p hp
      exact absurd hp (List.not_mem_nil p)
  | cons p rest ih =>
    intro o m hm ho
    rw [List.foldl_cons]
    by_cases hlt : JSNum.jsLt (distSqJS clat clng p) m = true
    · have hstep : nearestStep clat clng (o, m) p = (some p, distSqJS clat clng p) := by
        simp [nearestStep, hlt]
      rw [hstep]
      have hdnn : distSqJS clat clng p ≠ .nan := (JSNum.jsLt_ne_nan hlt).1
      obtain ⟨h1, h2, h3, h4, h5⟩ := ih (some p) (distSqJS clat clng p) hdnn
        (by intro q hq; cases hq; rfl)
      refine ⟨h1, h2, ?_, ?_, ?_⟩
      · exact JSNum.jsLe_trans h3 (JSNum.jsLe_of_lt hlt)
      · intro q hq
        rcases List.mem_cons.mp hq with hq | hq
        · subst hq
          exact JSNum.jsLt_not_of_le h3
        · exact h4 q hq
      · rcases h5 with h5 | ⟨r, hr, hr2⟩
        · right
          exact ⟨p, List.mem_cons_self p rest, by rw [h5]⟩
        · right
          exact ⟨r, List.mem_cons_of_mem p hr, hr2⟩
    · have hstep : nearestStep clat clng (o, m) p = (o, m) := by
        simp [nearestStep, hlt]
      rw [hstep]
      obtain ⟨h1, h2, h3, h4, h5⟩ := ih o m hm ho
      refine ⟨h1, h2, h3, ?_, ?_⟩
      · intro q hq
        rcases List.mem_cons.mp hq with hq | hq
        · subst hq
          by_cases hdn : distSqJS clat clng q = .nan
          · rw [hdn]
            exact JSNum.jsLt_nan_left _
          · have hge : JSNum.jsLe m (distSqJS clat clng q) :=
              JSNum.jsLe_of_not_lt hdn hm (by simpa using hlt)
            exact JSNum.jsLt_not_of_le (JSNum.jsLe_trans h3 hge)
        · exact h4 q hq
      · rcases h5 with h5 | ⟨r, hr, hr2⟩
        · exact Or.inl h5
        · exact Or.inr ⟨r, List.mem_cons_of_mem p hr, hr2⟩

/-- C5 (amended): the lookup reports no clicked point exactly when the point
set is empty or no point lies strictly within the 100-unit threshold (the
threshold is exclusive: a minimum scaled distance equal to 100 also
reports none); otherwise it reports the click coordinates together with
the value of a point minimizing the distance. -/
theorem C5_nearest_lookup (clat clng : ℚ) (pts : List HeatPoint) :
    (handleMapClick clat clng pts = none ↔
      pts = [] ∨ ∀ p ∈ pts, JSNum.jsLt (distSqJS clat clng p) (.fin 1) = false) ∧
    (∀ cp, handleMapClick clat clng pts = some cp →
      cp.lat = clat ∧ cp.lng = clng ∧
      ∃ p ∈ pts, cp.value = p.value ∧
        JSNum.jsLt (distSqJS clat clng p) (.fin 1) = true ∧
        ∀ q ∈ pts, JSNum.jsLt (distSqJS clat clng q) (distSqJS clat clng p) = false) := by
  by_cases he : pts = []
  · subst he
    simp [handleMapClick]
  · have hie : pts.isEmpty = false := by
      cases pts with
      | nil => exact absurd rfl he
      | cons a l => rfl
    obtain ⟨hmn, hq, _hle, hall, hor⟩ := nearestFold_go clat clng pts none .posInf
      (by simp) (by intro q hq; exact absurd hq (by simp))
    rcases hr : pts.foldl (nearestStep clat clng) (none, JSNum.posInf) with ⟨o, m⟩
    rw [hr] at hmn hq hall hor
    have hmc : handleMapClick clat clng pts =
        (match (o, m) with
         | (some p, minSq) =>
           if JSNum.jsLt minSq (.fin 1) then some ⟨clat, clng, p.value⟩ else none
         | (none, _) => none) := by
      rw [handleMapClick, if_neg (by simp [hie])]
      simp only [nearestFold]
      rw [hr]
    constructor
    · constructor
      · intro hnone
        right
        intro p hp
        cases o with
        | none =>
          have hm : m = .posInf := by
            rcases hor with h | ⟨r0, _hr0, hr1⟩
            · exact congrArg Prod.snd h
            · exact absurd hr1 (by simp)
          have h := hall p hp
          rw [hm] at h
          rcases hd : distSqJS clat clng p with q | _ | _ | _ <;> rw [hd] at h
          · simp [JSNum.jsLt] at h
          · rfl
          · simp [JSNum.jsLt] at h
          · rfl
        | some p0 =>
          have hthresh : JSNum.jsLt m (.fin 1) = false := by
            cases hc : JSNum.jsLt m (.fin 1) with
            | false => rfl
            | true =>
              rw [hmc] at hnone
              simp [hc] at hnone
          by_cases hdn : distSqJS clat clng p = .nan
          · rw [hdn]
            exact JSNum.jsLt_nan_left _
          · have h1 : JSNum.jsLe m (distSqJS clat clng p) = true :=
              JSNum.jsLe_of_not_lt hdn hmn (hall p hp)
            have h2 : JSNum.jsLe (.fin 1) m = true :=
              JSNum.jsLe_of_not_lt hmn (by simp) hthresh
            exact JSNum.jsLt_not_of_le (JSNum.jsLe_trans h2 h1)
      · intro hrhs
        rcases hrhs with hrhs | hrhs
        · exact absurd hrhs he
        · cases o with
          | none => simpa using hmc
          | some p0 =>
            have hp0 : p0 ∈ pts := by
              rcases hor with h | ⟨r0, hr0, hr1⟩
              · exact absurd (congrArg Prod.fst h) (by simp)
              · have heq0 : p0 = r0 := by simpa using hr1
                rw [heq0]
                exact hr0
            have hd0 : distSqJS clat clng p0 = m := hq p0 rfl
            have hth := hrhs p0 hp0
            rw [hd0] at hth
            rw [hmc]
            simp [hth]
    · intro cp hcp
      cases o with
      | none =>
        rw [hmc] at hcp
        simp at hcp
      | some p0 =>
        have hp0 : p0 ∈ pts := by
          rcases hor with h | ⟨r0, hr0, hr1⟩
          · exact absurd (congrArg Prod.fst h) (by simp)
          · have heq0 : p0 = r0 := by simpa using hr1
            rw [heq0]
            exact hr0
        have hd0 : distSqJS clat clng p0 = m := hq p0 rfl
        cases ht : JSNum.jsLt m (.fin 1) with
        | false =>
          rw [hmc] at hcp
          simp [ht] at hcp
        | true =>
          rw [hmc] at hcp
          simp only [ht, if_true] at hcp
          have hcp2 : cp = ⟨clat, clng, p0.value⟩ := by
            cases hcp
            rfl
          subst hcp2
          refine ⟨rfl, rfl, p0, hp0, rfl, ?_, ?_⟩
          · rw [hd0]
            exact ht
          · intro q hqm
            rw [hd0]
            exact hall q hqm

/-- C5 counterexample: clicking at (0,49) with the single point at (0,50)
gives a minimum scaled distance of exactly 100, which does NOT exceed the
threshold of 100, and the point set is nonempty - yet the lookup reports
no clicked point, because the code's comparison `minDistance < 100` is
strict.  This falsifies the claim's "otherwise it reports the nearest
point's value" clause at the boundary. -/
theorem C5_counterexample :
    handleMapClick 0 49 [c5BoundaryPoint] = none ∧
    [c5BoundaryPoint] ≠ [] ∧
    distSqJS 0 49 c5BoundaryPoint = .fin 1 ∧
    JSNum.jsLt (.fin 1) (distSqJS 0 49 c5BoundaryPoint) = false := by
  refine ⟨?_, by simp, ?_, ?_⟩
  · norm_num [handleMapClick, nearestFold, nearestStep, distSqJS, c5BoundaryPoint,
      JSNum.jsSub, JSNum.jsSq, JSNum.jsAdd, JSNum.jsLt]
  · norm_num [distSqJS, c5BoundaryPoint, JSNum.jsSub, JSNum.jsSq, JSNum.jsAdd]
  · norm_num [distSqJS, c5BoundaryPoint, JSNum.jsSub, JSNum.jsSq, JSNum.jsAdd, JSNum.jsLt]

theorem C5_witness :
    (handleMapClick 0 50 [c5NearPoint] = none ↔
      [c5NearPoint] = [] ∨ ∀ p ∈ [c5NearPoint],
        JSNum.jsLt (distSqJS 0 50 p) (.fin 1) = false) ∧
    (∀ cp, handleMapClick 0 50 [c5NearPoint] = some cp →
      cp.lat = 0 ∧ cp.lng = 50 ∧
      ∃ p ∈ [c5NearPoint], cp.value = p.value ∧
        JSNum.jsLt (distSqJS 0 50 p) (.fin 1) = true ∧
        ∀ q ∈ [c5NearPoint],
          JSNum.jsLt (distSqJS 0 50 q) (distSqJS 0 50 p) = false) :=
  C5_nearest_lookup 0 50 [c5NearPoint]

theorem plain_ne {c : Char} (h : plainChar c = true) :
    c ≠ '<' ∧ c ≠ '#' ∧ c ≠ '*' ∧ c ≠ '-' ∧ c.isDigit = false ∧ c ≠ '_' ∧
    c ≠ btk ∧ c ≠ '[' ∧ c ≠ '!' := by
  simp only [plainChar, Bool.and_eq_true, Bool.not_eq_true',
    decide_eq_false_iff_not] at h
  tauto

/-- A scan whose matcher fires on no suffix is the identity. -/
theorem scanReplace_id {m : List Char → Option (List Char × List Char)} :
    ∀ (fuel : ℕ) (l : List Char),
      (∀ c r, (c :: r) <:+ l → m (c :: r) = none) →
      scanReplace m fuel l = l := by
  intro fuel
  induction fuel with
  | zero => intro l _; cases l <;> rfl
  | succ f ih =>
    intro l h
    cases l with
    | nil => rfl
    | cons c rest =>
      have hm : m (c :: rest) = none := h c rest (List.suffix_refl _)
      have hrest := ih rest (fun c2 r2 hs => h c2 r2 (hs.trans (List.suffix_cons c rest)))
      simp [scanReplace, hm, hrest]

theorem runScan_id_of_plain {m : List Char → Option (List Char × List Char)}
    (hm : ∀ l : List Char, (∀ c ∈ l, plainChar c = true) → m l = none)
    (l : List Char) (h : ∀ c ∈ l, plainChar c = true) : runScan m l = l :=
  scanReplace_id l.length l
    (fun c r hs => hm (c :: r) (fun x hx => h x (hs.subset hx)))

theorem all_plain_dropWhile {p : Char → Bool} {l : List Char}
    (h : ∀ c ∈ l, plainChar c = true) :
    ∀ c ∈ l.dropWhile p, plainChar c = true :=
  fun c hc => h c ((List.dropWhile_sublist p).subset hc)

theorem mTagOpt_none (l : List Char) (h : ∀ c ∈ l, plainChar c = true) :
    mTagOpt l = none := by
  cases l with
  | nil => rfl
  | cons c r =>
    obtain ⟨h1, -⟩ := plain_ne (h c (List.mem_cons_self c r))
    simp [mTagOpt, h1]

theorem mHash_none (l : List Char) (h : ∀ c ∈ l, plainChar c = true) :
    mHash l = none := by
  unfold mHash
  cases hd : l.dropWhile isWs with
  | nil => rfl
  | cons c r =>
    have hc := all_plain_dropWhile (p := isWs) h c (by rw [hd]; exact List.mem_cons_self c r)
    obtain ⟨-, h2, -⟩ := plain_ne hc
    simp [h2]

theorem mStar_none (l : List Char) (h : ∀ c ∈ l, plainChar c = true) :
    mStar l = none := by
  unfold mStar
  cases hd : l.dropWhile isWs with
  | nil => rfl
  | cons c r =>
    have hc := all_plain_dropWhile (p := isWs) h c (by rw [hd]; exact List.mem_cons_self c r)
    obtain ⟨-, -, h3, -⟩ := plain_ne hc
    simp [h3]

theorem mDash_none (l : List Char) (h : ∀ c ∈ l, plainChar c = true) :
    mDash l = none := by
  unfold mDash
  cases hd : l.dropWhile isWs with
  | nil => rfl
  | cons c r =>
    have hc := all_plain_dropWhile (p := isWs) h c (by rw [hd]; exact List.mem_cons_self c r)
    obtain ⟨-, -, -, h4, -⟩ := plain_ne hc
    simp [h4]

theorem mNumDot_none (l : List Char) (h : ∀ c ∈ l, plainChar c = true) :
    mNumDot l = none := by
  unfold mNumDot
  cases hd : l.dropWhile isWs with
  | nil => rfl
  | cons c r =>
    have hc := all_plain_dropWhile (p := isWs) h c (by rw [hd]; exact List.mem_cons_self c r)
    obtain ⟨-, -, -, -, h5, -⟩ := plain_ne hc
    simp [h5]

theorem mRun2_none (l : List Char) (h : ∀ c ∈ l, plainChar c = true) :
    mRun2 l = none := by
  unfold mRun2
  cases hd : l.dropWhile isWs with
  | nil => rfl
  | cons c r =>
    have hc := all_plain_dropWhile (p := isWs) h c (by rw [hd]; exact List.mem_cons_self c r)
    obtain ⟨-, -, h3, h4, -, h6, -⟩ := plain_ne hc
    have : isRunChar c = false := by simp [isRunChar, h3, h4, h6]
    simp [this]

theorem mFence_none (l : List Char) (h : ∀ c ∈ l, plainChar c = true) :
    mFence l = none := by
  unfold mFence
  cases hd : l.dropWhile isWs with
  | nil => rfl
  | cons c r =>
    have hc := all_plain_dropWhile (p := isWs) h c (by rw [hd]; exact List.mem_cons_self c r)
    obtain ⟨-, -, -, -, -, -, h7, -⟩ := plain_ne hc
    simp [h7]

theorem mCode1_none (l : List Char) (h : ∀ c ∈ l, plainChar c = true) :
    mCode1 l = none := by
  unfold mCode1
  cases hd : l.dropWhile isWs with
  | nil => rfl
  | cons c r =>
    have hc := all_plain_dropWhile (p := isWs) h c (by rw [hd]; exact List.mem_cons_self c r)
    obtain ⟨-, -, -, -, -, -, h7, -⟩ := plain_ne hc
    simp [h7]

theorem mLink_none (l : List Char) (h : ∀ c ∈ l, plainChar c = true) :
    mLink l = none := by
  unfold mLink
  cases hd : l.dropWhile isWs with
  | nil => rfl
  | cons c r =>
    have hc := all_plain_dropWhile (p := isWs) h c (by rw [hd]; exact List.mem_cons_self c r)
    obtain ⟨-, -, -, -, -, -, -, h8, -⟩ := plain_ne hc
    simp [h8]

theorem mImg_none (l : List Char) (h : ∀ c ∈ l, plainChar c = true) :
    mImg l = none := by
  unfold mImg
  cases hd : l.dropWhile isWs with
  | nil => rfl
  | cons c r =>
    have hc := all_plain_dropWhile (p := isWs) h c (by rw [hd]; exact List.mem_cons_self c r)
    obtain ⟨-, -, -, -, -, -, -, -, h9⟩ := plain_ne hc
    simp [h9]

theorem dropWhile_of_head_not {p : Char → Bool} {l : List Char}
    (h : ∀ c, l.head? = some c → p c = false) : l.dropWhile p = l := by
  cases l with
  | nil => rfl
  | cons c r => simp [List.dropWhile_cons, h c rfl]

/-- Structure of the whitespace-collapse scan: its characters are those of
the input or spaces, no two adjacent output characters are whitespace, all
output whitespace is a plain space, and the head is the input's head when
that is not whitespace (and a space otherwise). -/
theorem collapse_spec :
    ∀ (fuel : ℕ) (l : List Char), l.length ≤ fuel →
      (∀ c ∈ scanReplace mWsRun fuel l, c ∈ l ∨ c = ' ') ∧
      noWsPair (scanReplace mWsRun fuel l) ∧
      wsSpaces (scanReplace mWsRun fuel l) ∧
      (∀ c, (scanReplace mWsRun fuel l).head? = some c →
        (isWs c = false ∧ l.head? = some c) ∨
        (c = ' ' ∧ ∃ d, l.head? = some d ∧ isWs d = true)) := by
  intro fuel
  induction fuel with
  | zero =>
    intro l hl
    have : l = [] := List.length_eq_zero.mp (Nat.le_zero.mp hl)
    subst this
    refine ⟨by simp [scanReplace], by simp [scanReplace, noWsPair], ?_, ?_⟩
    · intro c hc
      simp [scanReplace] at hc
    · intro c hc
      simp [scanReplace] at hc
  | succ f ih =>
    intro l hl
    cases l with
    | nil =>
      refine ⟨by simp [scanReplace], by simp [scanReplace, noWsPair], ?_, ?_⟩
      · intro c hc
        simp [scanReplace] at hc
      · intro c hc
        simp [scanReplace] at hc
    | cons c rest =>
      by_cases hws : isWs c = true
      · have hstep : scanReplace mWsRun (f + 1) (c :: rest)
            = ' ' :: scanReplace mWsRun f (rest.dropWhile isWs) := by
          simp [scanReplace, mWsRun, hws, List.dropWhile_cons]
        have hlen : (rest.dropWhile isWs).length ≤ f := by
          have h1 : (rest.dropWhile isWs).length ≤ rest.length :=
            (List.dropWhile_sublist isWs).length_le
          have h2 : rest.length ≤ f := by
            simpa using Nat.le_of_succ_le_succ hl
          omega
        obtain ⟨ihc, ihn, ihs, ihh⟩ := ih (rest.dropWhile isWs) hlen
        rw [hstep]
        refine ⟨?_, ?_, ?_, ?_⟩
        · intro x hx
          rcases List.mem_cons.mp hx with hx | hx
          · exact Or.inr hx
          · rcases ihc x hx with hx2 | hx2
            · exact Or.inl (List.mem_cons_of_mem c ((List.dropWhile_sublist isWs).subset hx2))
            · exact Or.inr hx2
        · rw [noWsPair, List.chain'_cons']
          refine ⟨?_, ihn⟩
          intro b hb
          rcases ihh b hb with ⟨hb1, hb2⟩ | ⟨hb1, d, hd1, hd2⟩
          · exact Or.inr hb1
          · exfalso
            have hnot := List.head?_dropWhile_not isWs rest
            rw [hd1] at hnot
            simp only at hnot
            exact absurd hd2 (by simp [hnot])
        · intro x hx hxws
          rcases List.mem_cons.mp hx with hx | hx
          · exact hx
          · exact ihs x hx hxws
        · intro x hx
          rw [List.head?_cons] at hx
          have hxs : x = ' ' := by injection hx with h; exact h.symm
          subst hxs
          exact Or.inr ⟨rfl, c, rfl, hws⟩
      · have hwsf : isWs c = false := by simpa using hws
        have hstep : scanReplace mWsRun (f + 1) (c :: rest)
            = c :: scanReplace mWsRun f rest := by
          simp [scanReplace, mWsRun, hwsf]
        have hlen : rest.length ≤ f := by simpa using Nat.le_of_succ_le_succ hl
        obtain ⟨ihc, ihn, ihs, ihh⟩ := ih rest hlen
        rw [hstep]
        refine ⟨?_, ?_, ?_, ?_⟩
        · intro x hx
          rcases List.mem_cons.mp hx with hx | hx
          · exact Or.inl (hx ▸ List.mem_cons_self c rest)
          · rcases ihc x hx with hx2 | hx2
            · exact Or.inl (List.mem_cons_of_mem c hx2)
            · exact Or.inr hx2
        · rw [noWsPair, List.chain'_cons']
          exact ⟨fun b _ => Or.inl hwsf, ihn⟩
        · intro x hx hxws
          rcases List.mem_cons.mp hx with hx | hx
          · exact absurd (hx ▸ hxws) (by simp [hwsf])
          · exact ihs x hx hxws
        · intro x hx
          rw [List.head?_cons] at hx
          left
          have hxc : x = c := by injection hx with h; exact h.symm
          subst hxc
          exact ⟨hwsf, rfl⟩

/-- The collapse scan is the identity on already collapsed input. -/
theorem collapse_id :
    ∀ (fuel : ℕ) (l : List Char), l.length ≤ fuel → noWsPair l → wsSpaces l →
      scanReplace mWsRun fuel l = l := by
  intro fuel
  induction fuel with
  | zero =>
    intro l hl _ _
    have : l = [] := List.length_eq_zero.mp (Nat.le_zero.mp hl)
    subst this
    rfl
  | succ f ih =>
    intro l hl hn hs
    cases l with
    | nil => rfl
    | cons c rest =>
      have hlen : rest.length ≤ f := by simpa using Nat.le_of_succ_le_succ hl
      have hn2 : noWsPair rest := (List.chain'_cons'.mp hn).2
      have hs2 : wsSpaces rest := fun x hx => hs x (List.mem_cons_of_mem c hx)
      by_cases hws : isWs c = true
      · have hcsp : c = ' ' := hs c (List.mem_cons_self c rest) hws
        have hdrest : rest.dropWhile isWs = rest := by
          apply dropWhile_of_head_not
          intro d hd
          have := (List.chain'_cons'.mp hn).1 d hd
          rcases this with h | h
          · exact absurd hws (by simp [h])
          · exact h
        have hstep : scanReplace mWsRun (f + 1) (c :: rest)
            = ' ' :: scanReplace mWsRun f (rest.dropWhile isWs) := by
          simp [scanReplace, mWsRun, hws, List.dropWhile_cons]
        rw [hstep, hdrest, ih rest hlen hn2 hs2, hcsp]
      · have hwsf : isWs c = false := by simpa using hws
        have hstep : scanReplace mWsRun (f + 1) (c :: rest)
            = c :: scanReplace mWsRun f rest := by
          simp [scanReplace, mWsRun, hwsf]
        rw [hstep, ih rest hlen hn2 hs2]

/-- Trimming keeps a sublist of the characters. -/
theorem wsTrimList_subset {l : List Char} : ∀ c ∈ wsTrimList l, c ∈ l := by
  intro c hc
  unfold wsTrimList dropTrailingWs at hc
  rw [List.mem_reverse] at hc
  have h1 := (List.dropWhile_sublist isWs).subset hc
  rw [List.mem_reverse] at h1
  exact (List.dropWhile_sublist isWs).subset h1

/-- Trimming preserves the no-adjacent-whitespace property. -/
theorem wsTrimList_noWsPair {l : List Char} (h : noWsPair l) :
    noWsPair (wsTrimList l) := by
  unfold wsTrimList dropTrailingWs
  have h1 : noWsPair (l.dropWhile isWs) :=
    List.Chain'.suffix h (List.dropWhile_suffix isWs)
  have h2 : noWsPair (l.dropWhile isWs).reverse := by
    rw [noWsPair, List.chain'_reverse]
    exact h1.imp (fun a b hab => hab.symm)
  have h3 : noWsPair ((l.dropWhile isWs).reverse.dropWhile isWs) :=
    List.Chain'.suffix h2 (List.dropWhile_suffix isWs)
  rw [noWsPair, List.chain'_reverse]
  exact h3.imp (fun a b hab => hab.symm)

/-- The trimmed list starts with a non-whitespace character. -/
theorem wsTrimList_head_not {l : List Char} :
    ∀ c, (wsTrimList l).head? = some c → isWs c = false := by
  intro c hc
  unfold wsTrimList dropTrailingWs at hc
  have h1 : (l.dropWhile isWs).reverse.dropWhile isWs <:+ (l.dropWhile isWs).reverse :=
    List.dropWhile_suffix isWs
  have h2 : ((l.dropWhile isWs).reverse.dropWhile isWs).reverse <+: l.dropWhile isWs := by
    have h3 := List.reverse_prefix.mpr h1
    rwa [List.reverse_reverse] at h3
  obtain ⟨w, hw⟩ := h2
  have hu : (l.dropWhile isWs).head? = some c := by
    rw [← hw, List.head?_append, hc]
    rfl
  have hnot := List.head?_dropWhile_not isWs l
  rw [hu] at hnot
  simpa using hnot

/-- The trimmed list ends with a non-whitespace character. -/
theorem wsTrimList_last_not {l : List Char} :
    ∀ c, (wsTrimList l).reverse.head? = some c → isWs c = false := by
  intro c hc
  unfold wsTrimList dropTrailingWs at hc
  rw [List.reverse_reverse] at hc
  have hnot := List.head?_dropWhile_not isWs (l.dropWhile isWs).reverse
  rw [hc] at hnot
  simpa using hnot

/-- Trimming a list already free of leading and trailing whitespace is the
identity. -/
theorem wsTrimList_id {l : List Char}
    (hh : ∀ c, l.head? = some c → isWs c = false)
    (hl : ∀ c, l.reverse.head? = some c → isWs c = false) :
    wsTrimList l = l := by
  unfold wsTrimList dropTrailingWs
  rw [dropWhile_of_head_not hh, dropWhile_of_head_not hl, List.reverse_reverse]

/-- On trigger-free input, `cleanText` reduces to whitespace collapse
followed by trim: every other replacement pass is the identity. -/
theorem cleanText_plain_eq (s : String) (hne : s ≠ "")
    (h : ∀ c ∈ s.data, plainChar c = true) :
    cleanText s = ⟨wsTrimList (runScan mWsRun s.data)⟩ := by
  unfold cleanText domTextContent
  rw [if_neg hne]
  rw [runScan_id_of_plain mTagOpt_none _ h]
  rw [runScan_id_of_plain mTagOpt_none _ h]
  rw [runScan_id_of_plain mHash_none _ h]
  rw [runScan_id_of_plain mStar_none _ h]
  rw [runScan_id_of_plain mDash_none _ h]
  rw [runScan_id_of_plain mNumDot_none _ h]
  have hu : ∀ c ∈ runScan mWsRun s.data, plainChar c = true := by
    intro c hc
    rcases (collapse_spec s.data.length s.data (le_refl _)).1 c hc with h2 | h2
    · exact h c h2
    · rw [h2]; decide
  rw [runScan_id_of_plain mRun2_none _ hu]
  rw [runScan_id_of_plain mFence_none _ hu]
  rw [runScan_id_of_plain mCode1_none _ hu]
  rw [runScan_id_of_plain mLink_none _ hu]
  rw [runScan_id_of_plain mImg_none _ hu]

/-- C4 (amended): `cleanText` applied twice equals `cleanText` applied once
for every string containing none of the formatter's trigger characters
(`<`, `#`, `*`, `-`, decimal digits, `_`, backtick, `[`, `!`); on such
strings one application collapses whitespace and trims, and a second
application changes nothing.  In general the equation fails (see the
counterexample). -/
theorem C4_cleanText_idempotent_on_plain (s : String)
    (h : ∀ c ∈ s.data, plainChar c = true) :
    cleanText (cleanText s) = cleanText s := by
  by_cases hne : s = ""
  · subst hne; rfl
  · have hspec := collapse_spec s.data.length s.data (le_refl _)
    have hcs := cleanText_plain_eq s hne h
    rw [hcs]
    have huplain : ∀ c ∈ runScan mWsRun s.data, plainChar c = true := by
      intro c hc
      rcases hspec.1 c hc with h2 | h2
      · exact h c h2
      · rw [h2]; decide
    have htplain :
        ∀ c ∈ (⟨wsTrimList (runScan mWsRun s.data)⟩ : String).data, plainChar c = true := by
      intro c hc
      exact huplain c (wsTrimList_subset c hc)
    by_cases hte : (⟨wsTrimList (runScan mWsRun s.data)⟩ : String) = ""
    · rw [hte]; rfl
    · rw [cleanText_plain_eq _ hte htplain]
      have hct : runScan mWsRun (wsTrimList (runScan mWsRun s.data))
          = wsTrimList (runScan mWsRun s.data) :=
        collapse_id _ _ (le_refl _)
          (wsTrimList_noWsPair hspec.2.1)
          (fun c hc hw => hspec.2.2.1 c (wsTrimList_subset c hc) hw)
      have htt : wsTrimList (wsTrimList (runScan mWsRun s.data))
          = wsTrimList (runScan mWsRun s.data) :=
        wsTrimList_id wsTrimList_head_not wsTrimList_last_not
      show (⟨wsTrimList (runScan mWsRun (wsTrimList (runScan mWsRun s.data)))⟩ : String)
          = ⟨wsTrimList (runScan mWsRun s.data)⟩
      rw [hct, htt]

/-- C4 counterexample: for the input consisting of a backtick-quoted digit
followed by a dot, one application gives `"1."` but a second application
removes the now-exposed `digits-dot` pattern, so `cleanText` is not
idempotent. -/
theorem C4_counterexample : cleanText (cleanText "`1`.") ≠ cleanText "`1`." := by
  decide

theorem C4_witness :
    cleanText (cleanText "hello  world") = cleanText "hello  world" :=
  C4_cleanText_idempotent_on_plain "hello  world" (by decide)

/-- C7: evaluating the rich-mode formatter at a fenced code block whose
content is `a**b**c` shows the inner content is NOT preserved verbatim:
the code block is restored before the bold substitution runs, so the
output contains `a<strong>b</strong>c` inside the `<pre><code>` wrapper
and the original content no longer occurs in the output. -/
theorem C7_fenced_code_mangled :
    formatMessageText "```a**b**c```"
      = "<p class=\"message-paragraph\"><pre class=\"code-block\"><code>a<strong>b</strong>c</code></pre></p>" ∧
    containsSub ("a**b**c").data (formatMessageText "```a**b**c```").data = false ∧
    containsSub ("a**b**c").data ("```a**b**c```").data = true := by
  refine ⟨by decide, by decide, by decide⟩
